import Mathlib

/-!
# PSP1 audio driver: ring buffer, producer, consumer and lifecycle

Shallow embedding of `audio/drivers/psp1_audio.c`.

Memory is modelled at byte granularity: the ring storage (`buffer`) and the
silence chunk (`zeroBuffer`) are lists of bytes, a sample frame is one
`uint32_t`, i.e. four consecutive bytes. The cursors `readPos` and `writePos`
are `uint16_t` fields counted in frames. `unsigned` and `size_t` are 32 bits
wide on the PSP (MIPS32, o32/eabi), `uint16_t` operands are promoted to `int`
before arithmetic; every narrowing conversion is written out with `u16`/`u32`.

Calls into the PSP kernel and audio library are external. Their answers are
parameters of the embedded functions, the calls a function makes are returned
as a trace.
-/

namespace Psp1Audio

/-! ## Machine integers -/

/-- Conversion of an integer value to `uint16_t`. -/
def u16 (x : Int) : Nat := (x % 65536).toNat

/-- Conversion of an integer value to a 32-bit `unsigned` / `size_t`. -/
def u32 (x : Int) : Nat := (x % 4294967296).toNat

/-- Size in bytes of one sample frame, `sizeof(uint32_t)`. -/
def SIZEOF_UINT32 : Nat := 4

/-- Number of frames per hardware period, `#define AUDIO_OUT_COUNT 512u`. -/
def AUDIO_OUT_COUNT : Nat := 512

/-- Capacity of the ring in frames, `#define AUDIO_BUFFER_SIZE (1u<<13u)`. -/
def AUDIO_BUFFER_SIZE : Nat := 1 <<< 13

/-- Wraparound mask, `#define AUDIO_BUFFER_SIZE_MASK (AUDIO_BUFFER_SIZE-1)`. -/
def AUDIO_BUFFER_SIZE_MASK : Nat := AUDIO_BUFFER_SIZE - 1

/-! ## Memory -/

/-- Copy of `n` bytes from offset `o` of `src` to offset `d` of `dst`
(`memcpy(dst + d, src + o, n)`). The definition is exact for a copy that stays
inside both objects (`Memcpy.inBounds`). A copy that leaves either object is
undefined in C, where it overwrites whatever lies behind `dst`; here it copies
only the bytes that exist and never grows `dst`, so nothing about the contents
of memory is concluded from such a copy: statements about stored bytes or about
other objects are made for in-bounds copies only (`write_in_bounds`). -/
def memcpy (dst : List Nat) (d : Nat) (src : List Nat) (o n : Nat) : List Nat :=
  let chunk := (src.drop o).take n
  (dst.take d ++ chunk ++ dst.drop (d + chunk.length)).take dst.length

/-- One `memcpy` call of the write path: destination byte offset inside the
ring storage, source byte offset inside the caller's buffer, byte count. -/
structure Memcpy where
  dst : Nat
  src : Nat
  n : Nat
  deriving DecidableEq, Repr

/-- Effect of one recorded `memcpy` on the ring storage. -/
def Memcpy.run (buf : List Nat) (storage : List Nat) (c : Memcpy) : List Nat :=
  memcpy storage c.dst buf c.src c.n

/-- A copy stays inside a destination of `cap` bytes and a source of `len` bytes. -/
def Memcpy.inBounds (cap len : Nat) (c : Memcpy) : Prop :=
  c.dst + c.n ≤ cap ∧ c.src + c.n ≤ len

instance (cap len : Nat) (c : Memcpy) : Decidable (c.inBounds cap len) := by
  unfold Memcpy.inBounds; infer_instance

/-- The frame with index `i` of a byte array: its four bytes. -/
def frame (m : List Nat) (i : Nat) : List Nat := (m.drop (SIZEOF_UINT32 * i)).take SIZEOF_UINT32

/-- The `count` frames of a byte array starting at frame `start`. -/
def frames (m : List Nat) (start count : Nat) : List Nat :=
  (m.drop (SIZEOF_UINT32 * start)).take (SIZEOF_UINT32 * count)

/-- Little-endian byte image of a `uint32_t` sample (the PSP's Allegrex CPU is
little-endian). -/
def le32 (x : Nat) : List Nat :=
  [x % 256, x / 256 % 256, x / 65536 % 256, x / 16777216 % 256]

/-! ## Driver state -/

/-- The driver state, `struct psp1_audio`. -/
structure psp1_audio_t where
  nonblocking : Bool
  buffer : List Nat
  zeroBuffer : List Nat
  thread : Int
  rate : Int
  running : Bool
  readPos : Nat
  writePos : Nat
  deriving DecidableEq, Repr

/-- Calls into the PSP kernel made by the lifecycle functions. -/
inductive KernelCall where
  | createThread
  | startThread (uid : Int)
  | waitThreadEnd (uid : Int) (timeout : Nat)
  | deleteThread (uid : Int)
  | release (uid : Int)
  deriving DecidableEq, Repr

/-- Answer of `sceKernelReferThreadRunStatus`: its return code and the
`status` field it stores in `runStatus`. -/
structure RunStatus where
  ret : Int
  status : Int
  deriving DecidableEq, Repr

/-! ## Consumer loop -/

/-- Pointer handed to `sceAudioSRCOutputBlocking`: the silence chunk, or the
ring storage plus a frame offset (`psp->buffer + readPos`). -/
inductive SinkPtr where
  | zeroBuffer
  | buffer (off : Nat)
  deriving DecidableEq, Repr

/-- The value `(uint16_t)(psp->writePos - readPos) & AUDIO_BUFFER_SIZE_MASK`
tested by the consumer and used by `psp_write_avail`. -/
def availableToRead (readPos writePos : Nat) : Nat :=
  u16 ((writePos : Int) - (readPos : Int)) &&& AUDIO_BUFFER_SIZE_MASK

/-- The bytes the sink takes from the pointer it is given: the channel was
reserved for `AUDIO_OUT_COUNT` stereo 16-bit frames per output call
(`sceAudioSRCChReserve(AUDIO_OUT_COUNT, psp->rate, 2)`). -/
def sink_read (psp : psp1_audio_t) : SinkPtr → List Nat
  | .zeroBuffer => frames psp.zeroBuffer 0 AUDIO_OUT_COUNT
  | .buffer off => frames psp.buffer off AUDIO_OUT_COUNT

/-- One iteration of the body of the `while (psp->running)` loop of
`audioMainLoop`: the new state and the pointer passed to the sink. -/
def audioMainLoop_body (psp : psp1_audio_t) : psp1_audio_t × SinkPtr :=
  let readPos := psp.readPos
  if availableToRead readPos psp.writePos < AUDIO_OUT_COUNT * 2 then
    (psp, SinkPtr.zeroBuffer)
  else
    let ptr := SinkPtr.buffer readPos
    let readPos := u16 ((readPos : Int) + (AUDIO_OUT_COUNT : Int))
    let readPos := u16 ((readPos &&& AUDIO_BUFFER_SIZE_MASK : Nat) : Int)
    ({ psp with readPos := readPos }, ptr)

/-- One chunk handed to the sink: the pointer and the bytes read through it. -/
structure Emitted where
  ptr : SinkPtr
  data : List Nat
  deriving DecidableEq, Repr

/-- The chunk emitted by one loop iteration started in state `psp`. -/
def emit (psp : psp1_audio_t) : Emitted :=
  { ptr := (audioMainLoop_body psp).2, data := sink_read psp (audioMainLoop_body psp).2 }

/-- The loop `while (psp->running) { ... }` of `audioMainLoop`, run for at most
`fuel` iterations with no other thread touching the state: final state and
the chunks handed to the sink, in order. -/
def audioMainLoop : Nat → psp1_audio_t → psp1_audio_t × List Emitted
  | 0, psp => (psp, [])
  | fuel + 1, psp =>
    if psp.running then
      let r := audioMainLoop fuel (audioMainLoop_body psp).1
      (r.1, emit psp :: r.2)
    else (psp, [])

/-- The bytes the consumer drained from the ring storage: the concatenation
of the chunks that were read through a ring pointer. -/
def drained : List Emitted → List Nat
  | [] => []
  | e :: es =>
    match e.ptr with
    | .zeroBuffer => drained es
    | .buffer _ => e.data ++ drained es

/-! ## Driver interface -/

/-- Result of `psp_audio_init`: `NULL`, a fault (a `memset` through the
unchecked null result of `memalign`), or the new session with the kernel
calls made. -/
inductive InitResult where
  | null
  | fault
  | session (psp : psp1_audio_t) (calls : List KernelCall)
  deriving DecidableEq, Repr

/-- The function `psp_audio_init`. The outcomes of `calloc` and of the two
`memalign` calls and the thread id returned by `sceKernelCreateThread` are
parameters; `device` and `latency` are ignored by the source and left out. -/
def psp_audio_init (rate : Nat) (calloc_ok buffer_ok zero_ok : Bool) (uid : Int) : InitResult :=
  if !calloc_ok then InitResult.null
  else if !buffer_ok then InitResult.fault
  else if !zero_ok then InitResult.fault
  else
    InitResult.session
      { nonblocking := false
        buffer := List.replicate (AUDIO_BUFFER_SIZE * SIZEOF_UINT32) 0
        zeroBuffer := List.replicate (AUDIO_OUT_COUNT * SIZEOF_UINT32) 0
        thread := uid
        rate := if rate % 4294967296 < 2147483648 then (rate % 4294967296 : Nat)
                else (rate % 4294967296 : Nat) - 4294967296
        running := true
        readPos := 0
        writePos := 0 }
      [KernelCall.createThread, KernelCall.startThread uid]

/-- The session `psp_audio_init` returns when every allocation succeeds. -/
def init_session (rate : Nat) (uid : Int) : psp1_audio_t :=
  match psp_audio_init rate true true true uid with
  | .session psp _ => psp
  | _ => ⟨false, [], [], 0, 0, false, 0, 0⟩

/-- The `uint16_t sampleCount = size / sizeof(uint32_t)` of `psp_audio_write`. -/
def sampleCount (size : Nat) : Nat := u16 ((size / SIZEOF_UINT32 : Nat) : Int)

/-- The `memcpy` calls made by `psp_audio_write`, in order. -/
def psp_audio_write_memcpys (writePos size : Nat) : List Memcpy :=
  let sampleCount := sampleCount size
  if writePos + sampleCount > AUDIO_BUFFER_SIZE then
    [ { dst := SIZEOF_UINT32 * writePos
        src := 0
        n := u32 (u32 ((AUDIO_BUFFER_SIZE : Int) - (writePos : Int)) * SIZEOF_UINT32) },
      { dst := 0
        src := SIZEOF_UINT32 * u32 ((AUDIO_BUFFER_SIZE : Int) - (writePos : Int))
        n := u32 (u32 ((writePos : Int) + (sampleCount : Int) - (AUDIO_BUFFER_SIZE : Int))
                * SIZEOF_UINT32) } ]
  else
    [ { dst := SIZEOF_UINT32 * writePos, src := 0, n := size } ]

/-- The function `psp_audio_write`: the new state and the returned value. -/
def psp_audio_write (psp : psp1_audio_t) (buf : List Nat) (size : Nat) : psp1_audio_t × Nat :=
  let writePos := psp.writePos
  let sampleCount := sampleCount size
  let buffer := (psp_audio_write_memcpys writePos size).foldl (Memcpy.run buf) psp.buffer
  let writePos := u16 ((writePos : Int) + (sampleCount : Int))
  let writePos := u16 ((writePos &&& AUDIO_BUFFER_SIZE_MASK : Nat) : Int)
  ({ psp with buffer := buffer, writePos := writePos }, sampleCount)

/-- The function `psp_audio_alive`. -/
def psp_audio_alive : Option psp1_audio_t → Bool
  | none => false
  | some psp => psp.running

/-- The function `psp_audio_stop`. `q` is the answer of the status query,
`stopped` the value of `PSP_THREAD_STOPPED` (declared by the PSP SDK). The
bounded join `sceKernelWaitThreadEnd` is recorded in the trace; whether the
thread ended in time shows only in later status answers. -/
def psp_audio_stop (stopped : Int) (psp : psp1_audio_t) (q : RunStatus) :
    Bool × psp1_audio_t × List KernelCall :=
  let timeout := 100000
  if q.ret < 0 then (false, psp, [])
  else if q.status = stopped then (false, psp, [])
  else (true, { psp with running := false }, [KernelCall.waitThreadEnd psp.thread timeout])

/-- The function `psp_audio_start`, with the same parameters as `psp_audio_stop`. -/
def psp_audio_start (stopped : Int) (psp : psp1_audio_t) (q : RunStatus) :
    Bool × psp1_audio_t × List KernelCall :=
  if q.ret < 0 then (false, psp, [])
  else if q.status ≠ stopped then (false, psp, [])
  else (true, { psp with running := true }, [KernelCall.startThread psp.thread])

/-- The function `psp_audio_set_nonblock_state`. -/
def psp_audio_set_nonblock_state (data : Option psp1_audio_t) (toggle : Bool) :
    Option psp1_audio_t :=
  match data with
  | none => none
  | some psp => some { psp with nonblocking := toggle }

/-- The function `psp_audio_use_float`. -/
def psp_audio_use_float (_data : Option psp1_audio_t) : Bool := false

/-- The function `psp_write_avail`. -/
def psp_write_avail (psp : psp1_audio_t) : Nat :=
  u32 ((AUDIO_BUFFER_SIZE : Int) - (availableToRead psp.readPos psp.writePos : Int))

/-- The function `psp_buffer_size`. -/
def psp_buffer_size (_psp : psp1_audio_t) : Nat := AUDIO_BUFFER_SIZE

/-- The function `psp_audio_free`: nothing for a null handle; otherwise the
running flag is cleared, the thread joined with a bounded wait and deleted,
and the three allocations released. The state returned is the one the
consumer sees before the release. -/
def psp_audio_free : Option psp1_audio_t → Option psp1_audio_t × List KernelCall
  | none => (none, [])
  | some psp =>
    let timeout := 100000
    (some { psp with running := false },
      [KernelCall.waitThreadEnd psp.thread timeout, KernelCall.deleteThread psp.thread,
       KernelCall.release psp.thread])

/-- Storage of the size allocated by `psp_audio_init`. -/
def Allocated (psp : psp1_audio_t) : Prop :=
  psp.buffer.length = AUDIO_BUFFER_SIZE * SIZEOF_UINT32 ∧
  psp.zeroBuffer.length = AUDIO_OUT_COUNT * SIZEOF_UINT32

/-- A sequence of `psp_audio_write` calls, each given as the caller's buffer
and its byte length, with no consumer iteration in between. -/
def write_all (psp : psp1_audio_t) (ws : List (List Nat × Nat)) : psp1_audio_t :=
  ws.foldl (fun s w => (psp_audio_write s w.1 w.2).1) psp

/-- Total number of frames requested by a sequence of writes. -/
def total_frames (ws : List (List Nat × Nat)) : Nat :=
  (ws.map (fun w => w.2 / SIZEOF_UINT32)).sum

/-- Every copy made by `psp_audio_write psp buf size` stays inside the ring
storage and inside the caller's buffer: the calls whose behaviour C defines
and which `memcpy` models exactly. -/
def write_in_bounds (psp : psp1_audio_t) (buf : List Nat) (size : Nat) : Prop :=
  ∀ c ∈ psp_audio_write_memcpys psp.writePos size, c.inBounds psp.buffer.length buf.length

instance (psp : psp1_audio_t) (buf : List Nat) (size : Nat) :
    Decidable (write_in_bounds psp buf size) := by
  unfold write_in_bounds; infer_instance

/-- States reachable from a successful `psp_audio_init` by the driver
operations and by iterations of the consumer loop, in any interleaving. The
write may have any size, so a state that follows an overrunning write is
included with the storage as `memcpy` leaves it; this relation is used only for
conclusions about the cursors and the size of the storage, which do not depend
on the bytes copied. Conclusions about memory contents use
`ReachableInBounds`. -/
inductive Reachable : psp1_audio_t → Prop where
  | init (rate : Nat) (uid : Int) : Reachable (init_session rate uid)
  | write (psp : psp1_audio_t) (buf : List Nat) (size : Nat) :
      Reachable psp → Reachable (psp_audio_write psp buf size).1
  | consume (psp : psp1_audio_t) : Reachable psp → Reachable (audioMainLoop_body psp).1
  | stop (stopped : Int) (psp : psp1_audio_t) (q : RunStatus) :
      Reachable psp → Reachable (psp_audio_stop stopped psp q).2.1
  | start (stopped : Int) (psp : psp1_audio_t) (q : RunStatus) :
      Reachable psp → Reachable (psp_audio_start stopped psp q).2.1
  | set_nonblock (psp : psp1_audio_t) (toggle : Bool) :
      Reachable psp → Reachable { psp with nonblocking := toggle }

/-- States reachable from a successful `psp_audio_init` when every write
keeps its copies inside the ring storage and the caller's buffer, that is, by
calls whose behaviour C defines. -/
inductive ReachableInBounds : psp1_audio_t → Prop where
  | init (rate : Nat) (uid : Int) : ReachableInBounds (init_session rate uid)
  | write (psp : psp1_audio_t) (buf : List Nat) (size : Nat) :
      ReachableInBounds psp → write_in_bounds psp buf size →
      ReachableInBounds (psp_audio_write psp buf size).1
  | consume (psp : psp1_audio_t) :
      ReachableInBounds psp → ReachableInBounds (audioMainLoop_body psp).1
  | stop (stopped : Int) (psp : psp1_audio_t) (q : RunStatus) :
      ReachableInBounds psp → ReachableInBounds (psp_audio_stop stopped psp q).2.1
  | start (stopped : Int) (psp : psp1_audio_t) (q : RunStatus) :
      ReachableInBounds psp → ReachableInBounds (psp_audio_start stopped psp q).2.1
  | set_nonblock (psp : psp1_audio_t) (toggle : Bool) :
      ReachableInBounds psp → ReachableInBounds { psp with nonblocking := toggle }

/-- A buffer of `count` frames that all hold the sample `x`. -/
def constant_frames (count x : Nat) : List Nat := (List.replicate count (le32 x)).flatten

/-- A session with the write cursor near the end of the ring. -/
def late_session : psp1_audio_t :=
  { init_session 44100 1 with readPos := 7680, writePos := 8000 }

/-- The scenario state after 1024 frames of value `0x12345678` were written
into a freshly initialised session. -/
def scenario_written : psp1_audio_t :=
  (psp_audio_write (init_session 44100 1) (constant_frames 1024 0x12345678) (4 * 1024)).1

/-- The scenario state after the first consumer iteration. -/
def scenario_first : psp1_audio_t := (audioMainLoop_body scenario_written).1

/-- The fresh session after one write of 100 frames. -/
def short_session : psp1_audio_t :=
  (psp_audio_write (init_session 44100 1) (constant_frames 100 1) (4 * 100)).1

/-- A session with 1024 frames available, the read cursor on the last chunk. -/
def buffered_session : psp1_audio_t :=
  { init_session 44100 1 with readPos := 7680, writePos := 512 }

/-- The operations of the driver interface and the consumer iteration, with
their arguments and the answers of the kernel. -/
inductive Op where
  | write (buf : List Nat) (size : Nat)
  | consume
  | stop (stopped : Int) (q : RunStatus)
  | start (stopped : Int) (q : RunStatus)
  | alive
  | set_nonblock_state (toggle : Bool)
  | free
  | use_float
  | write_avail
  | buffer_size
  deriving DecidableEq, Repr

/-- The driver state an operation leaves behind. `psp_audio_alive`,
`psp_audio_use_float`, `psp_write_avail` and `psp_buffer_size` only read the
state (the source assigns no field in them). -/
def Op.run : Op → psp1_audio_t → psp1_audio_t
  | .write buf size, psp => (psp_audio_write psp buf size).1
  | .consume, psp => (audioMainLoop_body psp).1
  | .stop stopped q, psp => (psp_audio_stop stopped psp q).2.1
  | .start stopped q, psp => (psp_audio_start stopped psp q).2.1
  | .alive, psp => psp
  | .set_nonblock_state toggle, psp =>
    (psp_audio_set_nonblock_state (some psp) toggle).getD psp
  | .free, psp => (psp_audio_free (some psp)).1.getD psp
  | .use_float, psp => psp
  | .write_avail, psp => psp
  | .buffer_size, psp => psp

/-- An operation whose behaviour C defines in state `psp`: a write must keep
its copies inside the ring storage and the caller's buffer. -/
def Op.defined (psp : psp1_audio_t) : Op → Prop
  | .write buf size => write_in_bounds psp buf size
  | _ => True

/-- The operations that may change the running flag: stop, start and free. -/
def Op.lifecycle : Op → Bool
  | .stop _ _ => true
  | .start _ _ => true
  | .free => true
  | _ => false

/-- A session whose write cursor stands on the last frame of the ring: the
fresh session after one write of 8191 frames. -/
def last_frame_session : psp1_audio_t :=
  write_all (init_session 44100 1) [(constant_frames 8191 0, 4 * 8191)]

end Psp1Audio

/-!
# X11 keyboard events: UTF-8 to UTF-32 conversion

Shallow embedding of `leading_ones` and `conv_utf8_utf32` of
`input/keyboard_event_x11.c`. The input is a list of bytes (the bit patterns
of the `char` elements), the output array a list of `uint32_t` values. The
offsets read from the input and the slots written to the output are recorded.
-/

namespace KeyboardEventX11

/-- The loop `while (c & 0x80) { ones++; c <<= 1; }` of `leading_ones`, with
`c` a `uint8_t`. -/
def leading_ones_loop (c ones : Nat) : Nat :=
  if h : c &&& 0x80 ≠ 0 then leading_ones_loop ((c <<< 1) % 256) (ones + 1) else ones
termination_by c
decreasing_by
  have hsmall : ∀ x, x < 128 → x &&& 0x80 = 0 := by decide
  have h128 : 128 ≤ c := by
    by_contra hlt
    exact h (hsmall c (by omega))
  rw [Nat.shiftLeft_eq]
  omega

/-- The function `leading_ones`; its argument is converted to `uint8_t`. -/
def leading_ones (c : Nat) : Nat := leading_ones_loop (c % 256) 0

/-- Result of `conv_utf8_utf32`: the returned count, the output array, the
input offsets read and the output slots written, both in order. -/
structure ConvResult where
  ret : Nat
  out : List Nat
  reads : List Nat
  writes : List Nat
  deriving DecidableEq, Repr

/-- The inner loop `for (i = 0; i < extra; i++, in++, shift -= 6)
c |= (*in & 0x3f) << shift;` with `extra - i` iterations left, `in` at offset
`pos`: the final `c` and the offsets read. -/
def conv_continuation (inp : List Nat) : Nat → Nat → Nat → Nat → Nat × List Nat
  | 0, _, _, c => (c, [])
  | n + 1, pos, shift, c =>
    let r := conv_continuation inp n (pos + 1) (Psp1Audio.u32 ((shift : Int) - 6))
      (c ||| ((inp.getD pos 0 &&& 0x3f) <<< shift))
    (r.1, pos :: r.2)

/-- The loop `while (in_size && out_chars)` of `conv_utf8_utf32`, with `in` at
offset `pos` of the input and `r` the result so far (`out` has advanced by
`r.ret` slots). -/
def conv_loop (inp : List Nat) : Nat → Nat → Nat → ConvResult → ConvResult
  | 0, _, _, r => r
  | out_chars + 1, in_size, pos, r =>
    if in_size = 0 then r
    else
      let first := inp.getD pos 0 % 256
      let r := { r with reads := r.reads ++ [pos] }
      let pos := pos + 1
      let ones := leading_ones first
      if ones > 6 ∨ ones = 1 then r
      else
        let extra := if ones ≠ 0 then ones - 1 else ones
        if 1 + extra > in_size then r
        else
          let shift := Psp1Audio.u32 (((extra : Int) - 1) * 6)
          let c := (first &&& ((1 <<< (7 - ones)) - 1)) <<< (6 * extra)
          let k := conv_continuation inp extra pos shift c
          conv_loop inp out_chars (in_size - (1 + extra)) (pos + extra)
            { ret := r.ret + 1
              out := r.out.set r.ret k.1
              reads := r.reads ++ k.2
              writes := r.writes ++ [r.ret] }

/-- The function `conv_utf8_utf32`. -/
def conv_utf8_utf32 (out : List Nat) (out_chars : Nat) (inp : List Nat) (in_size : Nat) :
    ConvResult :=
  conv_loop inp out_chars in_size 0 { ret := 0, out := out, reads := [], writes := [] }

/-- Reference encoder, not part of the sources: the classic 1-to-6-byte UTF-8
encoding of a code point below `2^31`, a lead byte with 0 or 2..6 leading one
bits followed by `10xxxxxx` continuation bytes. It is what the decoder is
compared with. -/
def utf8_encode (c : Nat) : List Nat :=
  if c < 0x80 then [c]
  else if c < 0x800 then [0xC0 + c / 64, 0x80 + c % 64]
  else if c < 0x10000 then [0xE0 + c / 4096, 0x80 + c / 64 % 64, 0x80 + c % 64]
  else if c < 0x200000 then
    [0xF0 + c / 262144, 0x80 + c / 4096 % 64, 0x80 + c / 64 % 64, 0x80 + c % 64]
  else if c < 0x4000000 then
    [0xF8 + c / 16777216, 0x80 + c / 262144 % 64, 0x80 + c / 4096 % 64, 0x80 + c / 64 % 64,
     0x80 + c % 64]
  else
    [0xFC + c / 1073741824, 0x80 + c / 16777216 % 64, 0x80 + c / 262144 % 64,
     0x80 + c / 4096 % 64, 0x80 + c / 64 % 64, 0x80 + c % 64]

/-- Concatenation of the encodings of a sequence of code points. -/
def utf8_encode_all (cs : List Nat) : List Nat := (cs.map utf8_encode).flatten

/-- A lead byte the decoder rejects when `remaining` input bytes are left:
its count of leading one bits is 1 or above 6, or the sequence it announces
is longer than the remaining input. -/
def rejected (first remaining : Nat) : Prop :=
  leading_ones first = 1 ∨ 6 < leading_ones first ∨
    remaining < 1 + (if leading_ones first ≠ 0 then leading_ones first - 1 else leading_ones first)

end KeyboardEventX11

namespace Psp1Audio

/-! ## Arithmetic of the cursors -/

theorem mask_eq_mod (x : Nat) : x &&& AUDIO_BUFFER_SIZE_MASK = x % 8192 := by
  have h := Nat.and_pow_two_sub_one_eq_mod x 13
  simpa [AUDIO_BUFFER_SIZE_MASK, AUDIO_BUFFER_SIZE] using h

theorem availableToRead_eq (r w : Nat) :
    availableToRead r w = (((w : Int) - (r : Int)) % 65536).toNat % 8192 := by
  simp [availableToRead, u16, mask_eq_mod]

theorem availableToRead_lt (r w : Nat) : availableToRead r w < 8192 := by
  rw [availableToRead_eq]; omega

theorem availableToRead_of_lt (r w : Nat) (hr : r < 8192) (hw : w < 8192) :
    availableToRead r w = (w + 8192 - r) % 8192 := by
  rw [availableToRead_eq]; omega

theorem sampleCount_eq (size : Nat) : sampleCount size = size / 4 % 65536 := by
  simp only [sampleCount, u16, SIZEOF_UINT32]; omega

/-! ## Memory lemmas -/

theorem memcpy_length (dst src : List Nat) (d o n : Nat) :
    (memcpy dst d src o n).length = dst.length := by
  simp only [memcpy, List.length_take, List.length_append, List.length_drop]
  omega

theorem memcpy_getElem? (dst src : List Nat) (d o n k : Nat)
    (hd : d + n ≤ dst.length) (hs : o + n ≤ src.length) :
    (memcpy dst d src o n)[k]? = if d ≤ k ∧ k < d + n then src[o + (k - d)]? else dst[k]? := by
  have hc : ((src.drop o).take n).length = n := by
    simp only [List.length_take, List.length_drop]; omega
  simp only [memcpy, hc]
  rw [List.take_of_length_le (by
    simp only [List.length_append, List.length_take, List.length_drop]; omega)]
  simp only [List.getElem?_append, List.length_append, List.length_take, List.length_drop,
    List.getElem?_take, List.getElem?_drop]
  have hmin : min d dst.length = d := by omega
  have hmin2 : min n (src.length - o) = n := by omega
  simp only [hmin, hmin2]
  by_cases h1 : k < d
  · have : ¬ (d ≤ k ∧ k < d + n) := by omega
    simp [h1, this]
    omega
  · by_cases h2 : k < d + n
    · have : d ≤ k ∧ k < d + n := by omega
      simp [h1, h2, this]
      omega
    · have : ¬ (d ≤ k ∧ k < d + n) := by omega
      simp [h1, h2, this]
      congr 1; omega

theorem frame_getElem? (m : List Nat) (i b : Nat) :
    (frame m i)[b]? = if b < 4 then m[4 * i + b]? else none := by
  simp [frame, SIZEOF_UINT32, List.getElem?_take, List.getElem?_drop]

theorem frames_getElem? (m : List Nat) (start count t : Nat) :
    (frames m start count)[t]? = if t < 4 * count then m[4 * start + t]? else none := by
  simp [frames, SIZEOF_UINT32, List.getElem?_take, List.getElem?_drop]

theorem frame_congr (m m2 : List Nat) (i j : Nat)
    (h : ∀ b, b < 4 → m[4 * i + b]? = m2[4 * j + b]?) : frame m i = frame m2 j := by
  apply List.ext_getElem?
  intro b
  rw [frame_getElem?, frame_getElem?]
  by_cases hb : b < 4
  · simp [hb, h b hb]
  · simp [hb]

/-! ## The write path -/

theorem sampleCount_frames (count : Nat) (hc : count ≤ 8192) : sampleCount (4 * count) = count := by
  rw [sampleCount_eq]; omega

theorem psp_audio_write_memcpys_straddle (w count : Nat) (hw : w < 8192) (hc : count ≤ 8192)
    (h : 8192 < w + count) :
    psp_audio_write_memcpys w (4 * count) =
      [ { dst := 4 * w, src := 0, n := 4 * (8192 - w) },
        { dst := 0, src := 4 * (8192 - w), n := 4 * (w + count - 8192) } ] := by
  have h1 : u32 ((8192 : Int) - (w : Int)) = 8192 - w := by simp only [u32]; omega
  have h2 : u32 (((8192 - w : Nat) : Int) * 4) = 4 * (8192 - w) := by simp only [u32]; omega
  have h3 : u32 ((w : Int) + (count : Int) - 8192) = w + count - 8192 := by
    simp only [u32]; omega
  have h4 : u32 (((w + count - 8192 : Nat) : Int) * 4) = 4 * (w + count - 8192) := by
    simp only [u32]; omega
  have hgt : w + count > 8192 := h
  simp [psp_audio_write_memcpys, sampleCount_frames count hc, AUDIO_BUFFER_SIZE, SIZEOF_UINT32,
    hgt, h1, h2, h3, h4]

theorem psp_audio_write_memcpys_linear (w count : Nat) (hc : count ≤ 8192)
    (h : w + count ≤ 8192) :
    psp_audio_write_memcpys w (4 * count) = [ { dst := 4 * w, src := 0, n := 4 * count } ] := by
  have hgt : ¬ (w + count > 8192) := by omega
  simp [psp_audio_write_memcpys, sampleCount_frames count hc, AUDIO_BUFFER_SIZE, SIZEOF_UINT32,
    hgt]

theorem psp_audio_write_buffer (psp : psp1_audio_t) (buf : List Nat) (size : Nat) :
    (psp_audio_write psp buf size).1.buffer =
      (psp_audio_write_memcpys psp.writePos size).foldl (Memcpy.run buf) psp.buffer := rfl

theorem psp_audio_write_writePos (psp : psp1_audio_t) (buf : List Nat) (size : Nat) :
    (psp_audio_write psp buf size).1.writePos = (psp.writePos + size / 4) % 8192 := by
  simp only [psp_audio_write, mask_eq_mod, sampleCount_eq, u16]
  omega

/-- Byte-level effect of a write of `count` whole frames at cursor `w`: the
byte at ring offset `(4 * w + t) mod 32768` is byte `t` of the input for
every `t < 4 * count`, every other byte is unchanged. -/
theorem psp_audio_write_bytes (psp : psp1_audio_t) (buf : List Nat) (count k : Nat)
    (hw : psp.writePos < 8192) (hc : count ≤ 8192)
    (hlen : psp.buffer.length = 32768) (hbuf : buf.length = 4 * count) :
    (psp_audio_write psp buf (4 * count)).1.buffer[k]? =
      if k < 32768 ∧ (k + 32768 - 4 * psp.writePos) % 32768 < 4 * count then
        buf[(k + 32768 - 4 * psp.writePos) % 32768]?
      else psp.buffer[k]? := by
  rw [psp_audio_write_buffer]
  by_cases h : 8192 < psp.writePos + count
  · rw [psp_audio_write_memcpys_straddle _ _ hw hc h]
    simp only [List.foldl_cons, List.foldl_nil, Memcpy.run]
    rw [memcpy_getElem? _ _ _ _ _ _ (by rw [memcpy_length]; omega) (by omega)]
    rw [memcpy_getElem? _ _ _ _ _ _ (by omega) (by omega)]
    by_cases hk : k < 32768
    · by_cases h1 : k < 4 * (psp.writePos + count - 8192)
      · have c1 : 0 ≤ k ∧ k < 0 + 4 * (psp.writePos + count - 8192) := by omega
        have c2 : k < 32768 ∧ (k + 32768 - 4 * psp.writePos) % 32768 < 4 * count := by omega
        rw [if_pos c1, if_pos c2]
        congr 1; omega
      · have c1 : ¬ (0 ≤ k ∧ k < 0 + 4 * (psp.writePos + count - 8192)) := by omega
        rw [if_neg c1]
        by_cases h2 : 4 * psp.writePos ≤ k
        · have c3 : 4 * psp.writePos ≤ k ∧ k < 4 * psp.writePos + 4 * (8192 - psp.writePos) := by
            omega
          have c2 : k < 32768 ∧ (k + 32768 - 4 * psp.writePos) % 32768 < 4 * count := by omega
          rw [if_pos c3, if_pos c2]
          congr 1; omega
        · have c3 : ¬ (4 * psp.writePos ≤ k ∧
              k < 4 * psp.writePos + 4 * (8192 - psp.writePos)) := by omega
          have c2 : ¬ (k < 32768 ∧ (k + 32768 - 4 * psp.writePos) % 32768 < 4 * count) := by
            omega
          rw [if_neg c3, if_neg c2]
    · have c1 : ¬ (0 ≤ k ∧ k < 0 + 4 * (psp.writePos + count - 8192)) := by omega
      have c3 : ¬ (4 * psp.writePos ≤ k ∧
          k < 4 * psp.writePos + 4 * (8192 - psp.writePos)) := by omega
      have c2 : ¬ (k < 32768 ∧ (k + 32768 - 4 * psp.writePos) % 32768 < 4 * count) := by omega
      rw [if_neg c1, if_neg c3, if_neg c2]
  · rw [psp_audio_write_memcpys_linear _ _ hc (by omega)]
    simp only [List.foldl_cons, List.foldl_nil, Memcpy.run]
    rw [memcpy_getElem? _ _ _ _ _ _ (by omega) (by omega)]
    by_cases h2 : 4 * psp.writePos ≤ k ∧ k < 4 * psp.writePos + 4 * count
    · have c2 : k < 32768 ∧ (k + 32768 - 4 * psp.writePos) % 32768 < 4 * count := by omega
      rw [if_pos h2, if_pos c2]
      congr 1; omega
    · have c2 : ¬ (k < 32768 ∧ (k + 32768 - 4 * psp.writePos) % 32768 < 4 * count) := by omega
      rw [if_neg h2, if_neg c2]

theorem psp_audio_write_length (psp : psp1_audio_t) (buf : List Nat) (size : Nat) :
    (psp_audio_write psp buf size).1.buffer.length = psp.buffer.length := by
  rw [psp_audio_write_buffer]
  generalize psp_audio_write_memcpys psp.writePos size = cs
  induction cs generalizing psp with
  | nil => rfl
  | cons c cs ih =>
    simp only [List.foldl_cons]
    have := ih { psp with buffer := Memcpy.run buf psp.buffer c }
    simpa [Memcpy.run, memcpy_length] using this

theorem init_session_eq (rate : Nat) (uid : Int) :
    init_session rate uid =
      { nonblocking := false
        buffer := List.replicate 32768 0
        zeroBuffer := List.replicate 2048 0
        thread := uid
        rate := if rate % 4294967296 < 2147483648 then (rate % 4294967296 : Nat)
                else (rate % 4294967296 : Nat) - 4294967296
        running := true
        readPos := 0
        writePos := 0 } := rfl

theorem late_session_buffer : late_session.buffer = List.replicate 32768 0 := rfl

theorem constant_frames_succ (count x : Nat) :
    constant_frames (count + 1) x = le32 x ++ constant_frames count x := by
  simp only [constant_frames, List.replicate_succ, List.flatten_cons]

theorem constant_frames_length (count x : Nat) :
    (constant_frames count x).length = 4 * count := by
  induction count with
  | zero => rfl
  | succ n ih =>
    rw [constant_frames_succ, List.length_append, ih]
    simp only [le32, List.length_cons, List.length_nil]
    omega

/-! ## Claims about the write path -/

/-- C1: for a write cursor `w < 8192`, a count `count ≤ 8192` and an input of
`count` frames, `psp_audio_write` with `size = 4 * count` leaves frame
`(w + i) mod 8192` of the storage equal to input frame `i` for every
`i < count` and leaves every other frame (and the size of the storage)
unchanged; when `w + count > 8192` it does so by a tail copy of `8192 - w`
frames at frame index `w` followed by a head copy of the remaining
`w + count - 8192` frames at index 0, and in both branches every copy stays
inside the storage and the input. -/
theorem psp_audio_write_stores (psp : psp1_audio_t) (buf : List Nat) (count : Nat)
    (hw : psp.writePos < 8192) (hc : count ≤ 8192)
    (hlen : psp.buffer.length = 4 * 8192) (hbuf : buf.length = 4 * count) :
    (∀ i, i < count →
      frame (psp_audio_write psp buf (4 * count)).1.buffer ((psp.writePos + i) % 8192)
        = frame buf i) ∧
    (∀ j, j < 8192 → (∀ i, i < count → j ≠ (psp.writePos + i) % 8192) →
      frame (psp_audio_write psp buf (4 * count)).1.buffer j = frame psp.buffer j) ∧
    (psp_audio_write psp buf (4 * count)).1.buffer.length = psp.buffer.length ∧
    (8192 < psp.writePos + count →
      psp_audio_write_memcpys psp.writePos (4 * count) =
        [ { dst := 4 * psp.writePos, src := 0, n := 4 * (8192 - psp.writePos) },
          { dst := 0, src := 4 * (8192 - psp.writePos),
            n := 4 * (psp.writePos + count - 8192) } ]) ∧
    (∀ c, c ∈ psp_audio_write_memcpys psp.writePos (4 * count) →
      c.inBounds psp.buffer.length buf.length) := by
  have hlen2 : psp.buffer.length = 32768 := by omega
  refine ⟨?_, ?_, psp_audio_write_length _ _ _, ?_, ?_⟩
  · intro i hi
    apply frame_congr
    intro b hb
    rw [psp_audio_write_bytes psp buf count _ hw hc hlen2 hbuf]
    have c : 4 * ((psp.writePos + i) % 8192) + b < 32768 ∧
        (4 * ((psp.writePos + i) % 8192) + b + 32768 - 4 * psp.writePos) % 32768
          < 4 * count := by omega
    rw [if_pos c]
    congr 1; omega
  · intro j hj hne
    apply frame_congr
    intro b hb
    rw [psp_audio_write_bytes psp buf count _ hw hc hlen2 hbuf]
    have hi := hne ((4 * j + b + 32768 - 4 * psp.writePos) % 32768 / 4)
    have c : ¬ (4 * j + b < 32768 ∧
        (4 * j + b + 32768 - 4 * psp.writePos) % 32768 < 4 * count) := by
      intro hcon
      apply hi (by omega)
      omega
    rw [if_neg c]
  · intro h
    exact psp_audio_write_memcpys_straddle _ _ hw hc h
  · intro c hcmem
    by_cases h : 8192 < psp.writePos + count
    · rw [psp_audio_write_memcpys_straddle _ _ hw hc h] at hcmem
      simp only [List.mem_cons, List.mem_singleton, List.not_mem_nil, or_false] at hcmem
      rcases hcmem with rfl | rfl <;> (simp only [Memcpy.inBounds]; omega)
    · rw [psp_audio_write_memcpys_linear _ _ hc (by omega)] at hcmem
      simp only [List.mem_singleton] at hcmem
      subst hcmem
      simp only [Memcpy.inBounds]; omega

/-- Witness for C1: a write of 500 frames at cursor 8000 of a zeroed ring,
which straddles the end of the storage. -/
theorem psp_audio_write_stores_witness :
    (∀ i, i < 500 →
      frame (psp_audio_write late_session (constant_frames 500 305419896) (4 * 500)).1.buffer
          ((late_session.writePos + i) % 8192)
        = frame (constant_frames 500 305419896) i) ∧
    (∀ j, j < 8192 → (∀ i, i < 500 → j ≠ (late_session.writePos + i) % 8192) →
      frame (psp_audio_write late_session (constant_frames 500 305419896) (4 * 500)).1.buffer j
        = frame late_session.buffer j) ∧
    (psp_audio_write late_session (constant_frames 500 305419896) (4 * 500)).1.buffer.length
      = late_session.buffer.length ∧
    (8192 < late_session.writePos + 500 →
      psp_audio_write_memcpys late_session.writePos (4 * 500) =
        [ { dst := 4 * late_session.writePos, src := 0,
            n := 4 * (8192 - late_session.writePos) },
          { dst := 0, src := 4 * (8192 - late_session.writePos),
            n := 4 * (late_session.writePos + 500 - 8192) } ]) ∧
    (∀ c, c ∈ psp_audio_write_memcpys late_session.writePos (4 * 500) →
      c.inBounds late_session.buffer.length (constant_frames 500 305419896).length) :=
  psp_audio_write_stores late_session (constant_frames 500 305419896) 500
    (by decide) (by decide)
    (by rw [late_session_buffer, List.length_replicate])
    (constant_frames_length 500 305419896)

/-- C2: for a write cursor `w < 8192` and `count ≤ 8192`, the cursor published
by `psp_audio_write` is the 16-bit sum masked with `AUDIO_BUFFER_SIZE_MASK`
and equals `(w + count) mod 8192`, straddling or not; when `w + count > 8192`
the call makes exactly two copies, of `8192 - w` and `w + count - 8192`
frames, whose lengths sum to `count`. -/
theorem psp_audio_write_wraparound (psp : psp1_audio_t) (buf : List Nat) (count : Nat)
    (hw : psp.writePos < 8192) (hc : count ≤ 8192) :
    (psp_audio_write psp buf (4 * count)).1.writePos
        = u16 ((u16 ((psp.writePos : Int) + (count : Int)) &&& AUDIO_BUFFER_SIZE_MASK : Nat) : Int) ∧
    (psp_audio_write psp buf (4 * count)).1.writePos = (psp.writePos + count) % 8192 ∧
    (8192 < psp.writePos + count →
      (psp_audio_write_memcpys psp.writePos (4 * count)).length = 2 ∧
      (psp_audio_write_memcpys psp.writePos (4 * count)).map Memcpy.n
        = [SIZEOF_UINT32 * (8192 - psp.writePos), SIZEOF_UINT32 * (psp.writePos + count - 8192)] ∧
      (8192 - psp.writePos) + (psp.writePos + count - 8192) = count) ∧
    (psp.writePos + count ≤ 8192 →
      (psp_audio_write_memcpys psp.writePos (4 * count)).map Memcpy.n
        = [SIZEOF_UINT32 * count]) := by
  refine ⟨?_, ?_, ?_, ?_⟩
  · simp only [psp_audio_write, sampleCount_frames count hc]
  · rw [psp_audio_write_writePos]; congr 1; omega
  · intro h
    rw [psp_audio_write_memcpys_straddle _ _ hw hc h]
    refine ⟨rfl, rfl, ?_⟩
    omega
  · intro h
    rw [psp_audio_write_memcpys_linear _ _ hc h]
    rfl

/-- Witness for C2: 500 frames written at cursor 8000. -/
theorem psp_audio_write_wraparound_witness :
    (psp_audio_write late_session (constant_frames 500 1) (4 * 500)).1.writePos = 308 ∧
    (psp_audio_write_memcpys late_session.writePos (4 * 500)).map Memcpy.n = [768, 1232] := by
  have h := psp_audio_write_wraparound late_session (constant_frames 500 1) 500
    (by decide) (by decide)
  refine ⟨h.2.1, ?_⟩
  exact (h.2.2.1 (by decide)).2.1

/-! ## The consumer loop -/

theorem availableToRead_self (r : Nat) : availableToRead r r = 0 := by
  rw [availableToRead_eq]; omega

theorem audioMainLoop_body_silence (psp : psp1_audio_t)
    (h : availableToRead psp.readPos psp.writePos < 1024) :
    audioMainLoop_body psp = (psp, SinkPtr.zeroBuffer) := by
  have h2 : availableToRead psp.readPos psp.writePos < AUDIO_OUT_COUNT * 2 := h
  simp only [audioMainLoop_body, if_pos h2]

theorem audioMainLoop_body_data (psp : psp1_audio_t)
    (h : 1024 ≤ availableToRead psp.readPos psp.writePos) :
    audioMainLoop_body psp =
      ({ psp with readPos := (psp.readPos + 512) % 8192 }, SinkPtr.buffer psp.readPos) := by
  have h2 : ¬ availableToRead psp.readPos psp.writePos < AUDIO_OUT_COUNT * 2 := by
    simp only [AUDIO_OUT_COUNT]; omega
  have h3 : u16 ((u16 ((psp.readPos : Int) + (AUDIO_OUT_COUNT : Int))
      &&& AUDIO_BUFFER_SIZE_MASK : Nat) : Int) = (psp.readPos + 512) % 8192 := by
    simp only [mask_eq_mod, u16, AUDIO_OUT_COUNT]; omega
  simp only [audioMainLoop_body, if_neg h2, h3]

theorem frames_length (m : List Nat) (start count : Nat)
    (h : 4 * (start + count) ≤ m.length) : (frames m start count).length = 4 * count := by
  simp only [frames, SIZEOF_UINT32, List.length_take, List.length_drop]; omega

theorem frames_zero_eq (m : List Nat) (count : Nat) (h : m.length = 4 * count) :
    frames m 0 count = m := by
  simp only [frames, SIZEOF_UINT32, Nat.mul_zero, List.drop_zero]
  exact List.take_of_length_le (by omega)

theorem frame_frames (m : List Nat) (start count i : Nat) (hi : i < count) :
    frame (frames m start count) i = frame m (start + i) := by
  apply frame_congr
  intro b hb
  rw [frames_getElem?]
  have c : 4 * i + b < 4 * count := by omega
  rw [if_pos c]
  congr 1; omega

/-- Invariant of the reachable states: the storage has its allocated size,
both cursors are below the capacity and the read cursor is a multiple of the
chunk size. -/
theorem Reachable.invariant {psp : psp1_audio_t} (h : Reachable psp) :
    psp.buffer.length = 32768 ∧
    psp.readPos % 512 = 0 ∧ psp.readPos < 8192 ∧ psp.writePos < 8192 := by
  induction h with
  | init rate uid =>
    rw [init_session_eq]
    refine ⟨List.length_replicate _ _, rfl, ?_, ?_⟩
    · show 0 < 8192
      omega
    · show 0 < 8192
      omega
  | write psp buf size _ ih =>
    obtain ⟨h2, h3, h4, _⟩ := ih
    refine ⟨?_, h3, h4, ?_⟩
    · rw [psp_audio_write_length]; exact h2
    · rw [psp_audio_write_writePos]; omega
  | consume psp _ ih =>
    obtain ⟨h2, h3, h4, h5⟩ := ih
    by_cases hav : availableToRead psp.readPos psp.writePos < 1024
    · rw [audioMainLoop_body_silence psp hav]
      exact ⟨h2, h3, h4, h5⟩
    · rw [audioMainLoop_body_data psp (by omega)]
      refine ⟨h2, ?_, ?_, h5⟩
      · show (psp.readPos + 512) % 8192 % 512 = 0
        omega
      · show (psp.readPos + 512) % 8192 < 8192
        omega
  | stop stopped psp q _ ih =>
    simp only [psp_audio_stop]
    split
    · exact ih
    · split
      · exact ih
      · exact ih
  | start stopped psp q _ ih =>
    simp only [psp_audio_start]
    split
    · exact ih
    · split
      · exact ih
      · exact ih
  | set_nonblock psp toggle _ ih => exact ih

/-- The silence chunk stays as `psp_audio_init` left it, 512 zero frames, in
every state reached by operations whose copies stay in bounds: no operation
writes to it. -/
theorem ReachableInBounds.zeroBuffer_eq {psp : psp1_audio_t} (h : ReachableInBounds psp) :
    psp.zeroBuffer = List.replicate 2048 0 := by
  induction h with
  | init rate uid => rw [init_session_eq]
  | write psp buf size _ _ ih => exact ih
  | consume psp _ ih =>
    by_cases hav : availableToRead psp.readPos psp.writePos < 1024
    · rw [audioMainLoop_body_silence psp hav]
      exact ih
    · rw [audioMainLoop_body_data psp (by omega)]
      exact ih
  | stop stopped psp q _ ih =>
    simp only [psp_audio_stop]
    split
    · exact ih
    · split
      · exact ih
      · exact ih
  | start stopped psp q _ ih =>
    simp only [psp_audio_start]
    split
    · exact ih
    · split
      · exact ih
      · exact ih
  | set_nonblock psp toggle _ ih => exact ih

/-- A write of `count ≤ 8192` whole frames from a buffer that holds them, at a
cursor below 8192 of a storage of the allocated size, keeps its copies in
bounds. -/
theorem write_in_bounds_frames (psp : psp1_audio_t) (buf : List Nat) (count : Nat)
    (hw : psp.writePos < 8192) (hc : count ≤ 8192)
    (hlen : psp.buffer.length = 32768) (hbuf : buf.length = 4 * count) :
    write_in_bounds psp buf (4 * count) := by
  intro c hcmem
  by_cases h : 8192 < psp.writePos + count
  · rw [psp_audio_write_memcpys_straddle _ _ hw hc h] at hcmem
    simp only [List.mem_cons, List.mem_singleton, List.not_mem_nil, or_false] at hcmem
    rcases hcmem with rfl | rfl <;> (simp only [Memcpy.inBounds]; omega)
  · rw [psp_audio_write_memcpys_linear _ _ hc (by omega)] at hcmem
    simp only [List.mem_singleton] at hcmem
    subst hcmem
    simp only [Memcpy.inBounds]; omega

theorem short_session_reachable : ReachableInBounds short_session :=
  ReachableInBounds.write _ _ _ (ReachableInBounds.init 44100 1)
    (write_in_bounds_frames (init_session 44100 1) (constant_frames 100 1) 100
      (by decide) (by decide) (List.length_replicate _ _) (constant_frames_length _ _))

theorem short_session_available :
    availableToRead short_session.readPos short_session.writePos = 100 := by
  show availableToRead (init_session 44100 1).readPos
    (psp_audio_write (init_session 44100 1) (constant_frames 100 1) (4 * 100)).1.writePos = 100
  rw [psp_audio_write_writePos, availableToRead_eq]
  rfl

/-! ## Claims about the consumer loop -/

/-- C5: underrun policy. In every state whose available-to-read count
`(writePos - readPos) mod 8192` is below one chunk (512 frames), one iteration
of the consumer loop hands the sink the silence chunk and changes nothing, so
`readPos` stays where it was; the bytes emitted are the silence chunk itself
whenever it has its allocated size, and they are 512 zero frames, as
`psp_audio_init` left them, in every state reached by operations whose copies
stay inside the storage (none of which writes to the silence chunk; a write
that overruns the storage is undefined in C and may overwrite it). -/
theorem audioMainLoop_underrun (psp : psp1_audio_t)
    (h : availableToRead psp.readPos psp.writePos < 512) :
    availableToRead psp.readPos psp.writePos
        = (((psp.writePos : Int) - (psp.readPos : Int)) % 65536).toNat % 8192 ∧
    (emit psp).ptr = SinkPtr.zeroBuffer ∧
    (emit psp).data = frames psp.zeroBuffer 0 AUDIO_OUT_COUNT ∧
    (audioMainLoop_body psp).1 = psp ∧
    (audioMainLoop_body psp).1.readPos = psp.readPos ∧
    (psp.zeroBuffer.length = 4 * 512 → (emit psp).data = psp.zeroBuffer) ∧
    (ReachableInBounds psp → (emit psp).data = List.replicate (4 * 512) 0) := by
  have hb := audioMainLoop_body_silence psp (by omega)
  have hd : (emit psp).data = frames psp.zeroBuffer 0 AUDIO_OUT_COUNT := by
    simp only [emit, hb, sink_read]
  refine ⟨availableToRead_eq _ _, ?_, hd, ?_, ?_, ?_, ?_⟩
  · simp only [emit, hb]
  · rw [hb]
  · rw [hb]
  · intro hl
    rw [hd]
    exact frames_zero_eq _ _ hl
  · intro hr
    have hz := hr.zeroBuffer_eq
    have hl : psp.zeroBuffer.length = 4 * 512 := by rw [hz, List.length_replicate]
    rw [hd]
    exact (frames_zero_eq psp.zeroBuffer 512 hl).trans hz

/-- Witness for C5: the fresh session after a write of 100 frames, where 100
frames are available. -/
theorem audioMainLoop_underrun_witness :
    (emit short_session).ptr = SinkPtr.zeroBuffer ∧
    (audioMainLoop_body short_session).1.readPos = short_session.readPos ∧
    (emit short_session).data = List.replicate (4 * 512) 0 := by
  have h := audioMainLoop_underrun short_session
    (by rw [short_session_available]; decide)
  exact ⟨h.2.1, h.2.2.2.2.1, h.2.2.2.2.2.2 short_session_reachable⟩

/-- C6: consumer data branch. One iteration hands the sink a ring pointer
(rather than the silence chunk) if and only if available-to-read is at least
`2 * 512 = 1024` frames; in that case the pointer is `buffer + readPos`, the
sink takes the 512 frames `storage[readPos .. readPos + 512)` through it, and
the published cursor is `(readPos + 512) & 8191`; nothing else changes. The
frame-by-frame reading holds wherever that range lies inside the storage,
which is so in every reachable state. -/
theorem audioMainLoop_data (psp : psp1_audio_t) :
    ((emit psp).ptr ≠ SinkPtr.zeroBuffer ↔ 1024 ≤ availableToRead psp.readPos psp.writePos) ∧
    (1024 ≤ availableToRead psp.readPos psp.writePos →
      (emit psp).ptr = SinkPtr.buffer psp.readPos ∧
      (emit psp).data = frames psp.buffer psp.readPos 512 ∧
      (audioMainLoop_body psp).1 = { psp with readPos := (psp.readPos + 512) &&& 8191 } ∧
      (audioMainLoop_body psp).1.readPos = (psp.readPos + 512) % 8192 ∧
      (∀ i, i < 512 → frame (emit psp).data i = frame psp.buffer (psp.readPos + i)) ∧
      (4 * (psp.readPos + 512) ≤ psp.buffer.length → (emit psp).data.length = 4 * 512) ∧
      (Reachable psp → (emit psp).data.length = 4 * 512 ∧ psp.readPos + 512 ≤ 8192)) := by
  constructor
  · by_cases hav : availableToRead psp.readPos psp.writePos < 1024
    · have hb := audioMainLoop_body_silence psp hav
      simp only [emit, hb]
      constructor
      · intro hne; exact absurd rfl hne
      · intro hge; omega
    · have hb := audioMainLoop_body_data psp (by omega)
      simp only [emit, hb]
      constructor
      · intro _; omega
      · intro _ hcon; cases hcon
  · intro hge
    have hb := audioMainLoop_body_data psp hge
    have hd : (emit psp).data = frames psp.buffer psp.readPos 512 := by
      simp only [emit, hb, sink_read, AUDIO_OUT_COUNT]
    have hm : (psp.readPos + 512) &&& 8191 = (psp.readPos + 512) % 8192 := by
      have := mask_eq_mod (psp.readPos + 512)
      simpa [AUDIO_BUFFER_SIZE_MASK, AUDIO_BUFFER_SIZE] using this
    refine ⟨?_, hd, ?_, ?_, ?_, ?_, ?_⟩
    · simp only [emit, hb]
    · rw [hb, hm]
    · rw [hb]
    · intro i hi
      rw [hd]
      exact frame_frames _ _ _ _ hi
    · intro hl
      rw [hd]
      exact frames_length _ _ _ hl
    · intro hr
      obtain ⟨h2, h3, h4, _⟩ := hr.invariant
      constructor
      · rw [hd]
        exact frames_length _ _ _ (by omega)
      · omega

/-- Witness for C6: 1024 frames available with the read cursor on the last
chunk of the ring; the published cursor wraps to 0. -/
theorem audioMainLoop_data_witness :
    (emit buffered_session).ptr = SinkPtr.buffer 7680 ∧
    (audioMainLoop_body buffered_session).1.readPos = 0 ∧
    (emit buffered_session).data.length = 4 * 512 := by
  have h := (audioMainLoop_data buffered_session).2 (by decide)
  exact ⟨h.1, h.2.2.2.1, h.2.2.2.2.2.1 (by
    show 4 * (7680 + 512) ≤ (List.replicate 32768 0).length
    rw [List.length_replicate])⟩

/-! ## Draining after a write -/

theorem drained_cons_silence (e : Emitted) (es : List Emitted) (h : e.ptr = SinkPtr.zeroBuffer) :
    drained (e :: es) = drained es := by
  simp only [drained, h]

theorem drained_cons_data (e : Emitted) (es : List Emitted) (off : Nat)
    (h : e.ptr = SinkPtr.buffer off) : drained (e :: es) = e.data ++ drained es := by
  simp only [drained, h]

theorem audioMainLoop_succ (fuel : Nat) (psp : psp1_audio_t) (h : psp.running = true) :
    audioMainLoop (fuel + 1) psp =
      ((audioMainLoop fuel (audioMainLoop_body psp).1).1,
        emit psp :: (audioMainLoop fuel (audioMainLoop_body psp).1).2) := by
  simp only [audioMainLoop, h, if_true]

/-- With no interleaving write the running consumer drains, in `n` iterations,
`min n k` chunks where `k = (available - 512) / 512`, and their bytes are the
ring contents in cursor order. The ring contents are given as a list `data`
whose byte `t` sits at ring offset `(4 * readPos + t) mod 32768`. -/
theorem audioMainLoop_drained (n : Nat) :
    ∀ (psp : psp1_audio_t) (data : List Nat), psp.running = true →
      psp.readPos % 512 = 0 → psp.readPos < 8192 → psp.writePos < 8192 →
      (∀ t, t < 4 * availableToRead psp.readPos psp.writePos →
        psp.buffer[(4 * psp.readPos + t) % 32768]? = data[t]?) →
      drained (audioMainLoop n psp).2 =
        data.take (2048 * min n ((availableToRead psp.readPos psp.writePos - 512) / 512)) := by
  induction n with
  | zero =>
    intro psp data _ _ _ _ _
    simp [audioMainLoop, drained]
  | succ n ih =>
    intro psp data hrun hal hr hw hdata
    rw [audioMainLoop_succ n psp hrun]
    by_cases hav : availableToRead psp.readPos psp.writePos < 1024
    · have hb := audioMainLoop_body_silence psp hav
      rw [drained_cons_silence _ _ (by simp only [emit, hb]), hb]
      rw [ih psp data hrun hal hr hw hdata]
      have hk : (availableToRead psp.readPos psp.writePos - 512) / 512 = 0 := by omega
      rw [hk]
      simp
    · have hge : 1024 ≤ availableToRead psp.readPos psp.writePos := by omega
      have hb := audioMainLoop_body_data psp hge
      have hptr : (emit psp).ptr = SinkPtr.buffer psp.readPos := by simp only [emit, hb]
      have hd : (emit psp).data = data.take 2048 := by
        simp only [emit, hb, sink_read, AUDIO_OUT_COUNT]
        apply List.ext_getElem?
        intro t
        rw [frames_getElem?, List.getElem?_take]
        by_cases ht : t < 2048
        · have ht2 : t < 4 * 512 := by omega
          rw [if_pos ht, if_pos ht2, ← hdata t (by omega)]
          congr 1; omega
        · have ht2 : ¬ t < 4 * 512 := by omega
          rw [if_neg ht, if_neg ht2]
      rw [drained_cons_data _ _ _ hptr, hd, hb]
      have hav2 : availableToRead ((psp.readPos + 512) % 8192) psp.writePos
          = availableToRead psp.readPos psp.writePos - 512 := by
        rw [availableToRead_of_lt _ _ (by omega) hw]
        rw [availableToRead_of_lt _ _ hr hw] at hge ⊢
        omega
      have hih := ih { psp with readPos := (psp.readPos + 512) % 8192 } (data.drop 2048)
        hrun (by show (psp.readPos + 512) % 8192 % 512 = 0; omega)
        (by show (psp.readPos + 512) % 8192 < 8192; omega) hw
        (by
          intro t ht
          show psp.buffer[(4 * ((psp.readPos + 512) % 8192) + t) % 32768]? = _
          rw [List.getElem?_drop]
          have ht2 : t < 4 * (availableToRead psp.readPos psp.writePos - 512) := by
            rw [← hav2]; exact ht
          have e : (4 * ((psp.readPos + 512) % 8192) + t) % 32768
              = (4 * psp.readPos + (2048 + t)) % 32768 := by omega
          rw [e]
          exact hdata (2048 + t) (by omega))
      rw [hih]
      have hav3 : availableToRead ((psp.readPos + 512) % 8192) psp.writePos
          = availableToRead psp.readPos psp.writePos - 512 := hav2
      simp only [hav3]
      rw [← List.take_add]
      congr 1
      omega

theorem psp_audio_write_readPos (psp : psp1_audio_t) (buf : List Nat) (size : Nat) :
    (psp_audio_write psp buf size).1.readPos = psp.readPos := rfl

theorem psp_audio_write_running (psp : psp1_audio_t) (buf : List Nat) (size : Nat) :
    (psp_audio_write psp buf size).1.running = psp.running := rfl

/-- Available-to-read after `count ≤ 8192` frames were written into an empty
ring: `count mod 8192`. -/
theorem availableToRead_after_write (psp : psp1_audio_t) (buf : List Nat) (count : Nat)
    (hempty : psp.readPos = psp.writePos) (hr : psp.readPos < 8192) :
    availableToRead (psp_audio_write psp buf (4 * count)).1.readPos
      (psp_audio_write psp buf (4 * count)).1.writePos = count % 8192 := by
  rw [psp_audio_write_readPos, psp_audio_write_writePos,
    availableToRead_of_lt _ _ hr (by omega)]
  omega

/-- Chunks drained by `n` consumer iterations after one write of `count`
frames into an empty ring whose read cursor is chunk-aligned: the first
`512 * min n k` frames of the input, `k = (count mod 8192 - 512) / 512`. -/
theorem drained_after_write (psp : psp1_audio_t) (buf : List Nat) (count n : Nat)
    (hc : count ≤ 8192) (hbuf : buf.length = 4 * count) (hrun : psp.running = true)
    (hlen : psp.buffer.length = 32768) (hempty : psp.readPos = psp.writePos)
    (hr : psp.readPos < 8192) (hal : psp.readPos % 512 = 0) :
    drained (audioMainLoop n (psp_audio_write psp buf (4 * count)).1).2
      = buf.take (2048 * min n ((count % 8192 - 512) / 512)) := by
  have hw : psp.writePos < 8192 := by omega
  have hav := availableToRead_after_write psp buf count hempty hr
  have h := audioMainLoop_drained n (psp_audio_write psp buf (4 * count)).1 buf
    hrun hal hr (by rw [psp_audio_write_writePos]; omega)
    (by
      intro t ht
      rw [hav] at ht
      rw [psp_audio_write_readPos, psp_audio_write_bytes psp buf count _ hw hc hlen hbuf]
      have c : (4 * psp.readPos + t) % 32768 < 32768 ∧
          ((4 * psp.readPos + t) % 32768 + 32768 - 4 * psp.writePos) % 32768 < 4 * count := by
        omega
      rw [if_pos c]
      have e : ((4 * psp.readPos + t) % 32768 + 32768 - 4 * psp.writePos) % 32768 = t := by
        omega
      rw [e])
  rw [hav] at h
  exact h

/-- After a write of at least one frame into an empty ring the consumer never
gets to drain the whole input. -/
theorem drained_after_write_ne (psp : psp1_audio_t) (buf : List Nat) (count n : Nat)
    (hc : count ≤ 8192) (hbuf : buf.length = 4 * count) (hrun : psp.running = true)
    (hlen : psp.buffer.length = 32768) (hempty : psp.readPos = psp.writePos)
    (hr : psp.readPos < 8192) (hal : psp.readPos % 512 = 0) (hpos : 0 < count) :
    drained (audioMainLoop n (psp_audio_write psp buf (4 * count)).1).2 ≠ buf := by
  rw [drained_after_write psp buf count n hc hbuf hrun hlen hempty hr hal]
  intro hcon
  have hl := congrArg List.length hcon
  rw [List.length_take] at hl
  omega

/-! ## Claims about the round trip -/

/-- C3 as stated fails: after 1024 frames were written into the fresh ring, no
number of consumer iterations makes the drained chunks equal the written
frames. -/
theorem round_trip_counterexample :
    ¬ ∃ n, drained (audioMainLoop n
        (psp_audio_write (init_session 44100 1) (constant_frames 1024 305419896)
          (4 * 1024)).1).2 = constant_frames 1024 305419896 := by
  rintro ⟨n, hn⟩
  exact drained_after_write_ne (init_session 44100 1) (constant_frames 1024 305419896) 1024 n
    (by decide) (constant_frames_length _ _) rfl (List.length_replicate _ _) rfl
    (by decide) (by decide) (by decide) hn

/-- C3 amended: for `count ≤ 8192` frames written into an empty ring
(`readPos = writePos`, chunk-aligned as in every reachable state) of a running
session, `n` consumer iterations with no interleaving write drain exactly the
first `512 * min n k` written frames, in order, where
`k = (count mod 8192 - 512) / 512`; the consumer stops draining once fewer than
1024 frames are available, so for `count > 0` the drained chunks are a proper
prefix of the written sequence and never the whole of it. -/
theorem round_trip_drains (psp : psp1_audio_t) (buf : List Nat) (count n : Nat)
    (hc : count ≤ 8192) (hbuf : buf.length = 4 * count) (hrun : psp.running = true)
    (hlen : psp.buffer.length = 4 * 8192) (hempty : psp.readPos = psp.writePos)
    (hr : psp.readPos < 8192) (hal : psp.readPos % 512 = 0) :
    drained (audioMainLoop n (psp_audio_write psp buf (4 * count)).1).2
      = frames buf 0 (512 * min n ((count % 8192 - 512) / 512)) ∧
    512 * min n ((count % 8192 - 512) / 512) ≤ count ∧
    (0 < count →
      512 * min n ((count % 8192 - 512) / 512) < count ∧
      drained (audioMainLoop n (psp_audio_write psp buf (4 * count)).1).2 ≠ buf) := by
  have hlen2 : psp.buffer.length = 32768 := by omega
  refine ⟨?_, by omega, ?_⟩
  · rw [drained_after_write psp buf count n hc hbuf hrun hlen2 hempty hr hal]
    simp only [frames, SIZEOF_UINT32, Nat.mul_zero, List.drop_zero]
    congr 1
    omega
  · intro hpos
    exact ⟨by omega,
      drained_after_write_ne psp buf count n hc hbuf hrun hlen2 hempty hr hal hpos⟩

/-- Witness for C3 amended: 2048 frames written into the fresh ring, five
consumer iterations; the first three chunks are drained, 512 frames stay. -/
theorem round_trip_drains_witness :
    drained (audioMainLoop 5
        (psp_audio_write (init_session 44100 1) (constant_frames 2048 305419896)
          (4 * 2048)).1).2
      = frames (constant_frames 2048 305419896) 0 1536 :=
  (round_trip_drains (init_session 44100 1) (constant_frames 2048 305419896) 2048 5
    (by decide) (constant_frames_length _ _) rfl (List.length_replicate _ _) rfl
    (by decide) (by decide)).1

/-! ## The drain scenario -/

theorem constant_frames_add (a b x : Nat) :
    constant_frames (a + b) x = constant_frames a x ++ constant_frames b x := by
  simp only [constant_frames, List.replicate_add, List.flatten_append]

theorem frames_constant_frames (n a b x : Nat) (h : a + b ≤ n) :
    frames (constant_frames n x) a b = constant_frames b x := by
  obtain ⟨c, rfl⟩ : ∃ c, n = a + (b + c) := ⟨n - a - b, by omega⟩
  rw [constant_frames_add, constant_frames_add]
  simp only [frames, SIZEOF_UINT32]
  rw [List.drop_left' (constant_frames_length a x), List.take_left' (constant_frames_length b x)]

theorem scenario_written_cursors :
    scenario_written.readPos = 0 ∧ scenario_written.writePos = 1024 := by
  constructor
  · rfl
  · simp only [scenario_written]
    rw [psp_audio_write_writePos]
    rfl

theorem scenario_written_available :
    availableToRead scenario_written.readPos scenario_written.writePos = 1024 := by
  rw [scenario_written_cursors.1, scenario_written_cursors.2, availableToRead_eq]
  rfl

theorem scenario_written_frames (start count : Nat) (h : start + count ≤ 1024) :
    frames scenario_written.buffer start count = constant_frames count 0x12345678 := by
  rw [← frames_constant_frames 1024 start count 0x12345678 h]
  apply List.ext_getElem?
  intro t
  rw [frames_getElem?, frames_getElem?]
  by_cases ht : t < 4 * count
  · rw [if_pos ht, if_pos ht]
    simp only [scenario_written]
    rw [psp_audio_write_bytes (init_session 44100 1) (constant_frames 1024 0x12345678) 1024 _
      (by decide) (by decide) (List.length_replicate _ _) (constant_frames_length _ _)]
    have e : (init_session 44100 1).writePos = 0 := rfl
    rw [e]
    have c : 4 * start + t < 32768 ∧ (4 * start + t + 32768 - 4 * 0) % 32768 < 4 * 1024 := by
      omega
    rw [if_pos c]
    have e2 : (4 * start + t + 32768 - 4 * 0) % 32768 = 4 * start + t := by omega
    rw [e2]
  · rw [if_neg ht, if_neg ht]

theorem scenario_first_eq :
    scenario_first = { scenario_written with readPos := 512 } := by
  simp only [scenario_first]
  rw [audioMainLoop_body_data scenario_written (by rw [scenario_written_available])]
  rw [scenario_written_cursors.1]

theorem scenario_first_available :
    availableToRead scenario_first.readPos scenario_first.writePos = 512 := by
  rw [scenario_first_eq]
  show availableToRead 512 scenario_written.writePos = 512
  rw [scenario_written_cursors.2, availableToRead_eq]
  rfl

theorem scenario_first_emit :
    emit scenario_written =
      { ptr := SinkPtr.buffer 0, data := constant_frames 512 0x12345678 } := by
  have hb := audioMainLoop_body_data scenario_written (by rw [scenario_written_available])
  simp only [emit, hb, sink_read, AUDIO_OUT_COUNT]
  rw [scenario_written_cursors.1, scenario_written_frames 0 512 (by omega)]

theorem scenario_second_emit :
    emit scenario_first =
      { ptr := SinkPtr.zeroBuffer, data := List.replicate 2048 0 } := by
  have hb := audioMainLoop_body_silence scenario_first (by rw [scenario_first_available]; omega)
  simp only [emit, hb, sink_read]
  have hz : scenario_first.zeroBuffer = List.replicate 2048 0 := by
    rw [scenario_first_eq]; rfl
  rw [hz]
  exact congrArg (Emitted.mk SinkPtr.zeroBuffer)
    (frames_zero_eq (List.replicate 2048 0) 512 (List.length_replicate _ _))

theorem scenario_first_buffer : scenario_first.buffer = scenario_written.buffer := by
  rw [scenario_first_eq]

theorem constant_frames_ne_zero (n : Nat) :
    List.replicate 2048 0 ≠ constant_frames (n + 1) 0x12345678 := by
  intro h
  have h0 := congrArg (fun l => l[0]?) h
  rw [constant_frames_succ] at h0
  have h1 : (List.replicate 2048 0)[0]? = some 0 := by
    rw [List.getElem?_replicate]
    exact if_pos (by omega)
  have h2 : (le32 0x12345678 ++ constant_frames n 0x12345678)[0]? = some 120 := rfl
  have h3 : some 0 = some 120 := h1.symm.trans (h0.trans h2)
  cases h3

/-- C4 as stated fails: the second consumer iteration, run right after the
first with no interleaving write, does not emit 512 frames of `0x12345678`. -/
theorem scenario_counterexample :
    (emit scenario_first).data ≠ constant_frames 512 0x12345678 := by
  rw [scenario_second_emit]
  exact constant_frames_ne_zero 511

/-- C4 amended: capacity 8192, chunk size 512. From the freshly initialised
state, writing 1024 frames of `0x12345678` returns 1024; the first consumer
iteration emits 512 frames of that value from the ring and advances `readPos`
from 0 to 512, leaving 512 frames buffered in the storage; a second iteration
with no interleaving write finds only 512 frames available, below the
1024-frame threshold, so it emits the silence chunk (512 zero frames) and
leaves `readPos` at 512 with the remaining 512 frames still buffered. -/
theorem scenario_drain :
    (psp_audio_write (init_session 44100 1) (constant_frames 1024 0x12345678) (4 * 1024)).2
      = 1024 ∧
    emit scenario_written = { ptr := SinkPtr.buffer 0, data := constant_frames 512 0x12345678 } ∧
    scenario_written.readPos = 0 ∧
    scenario_first.readPos = 512 ∧
    availableToRead scenario_first.readPos scenario_first.writePos = 512 ∧
    frames scenario_first.buffer 512 512 = constant_frames 512 0x12345678 ∧
    emit scenario_first = { ptr := SinkPtr.zeroBuffer, data := List.replicate (4 * 512) 0 } ∧
    (audioMainLoop_body scenario_first).1 = scenario_first ∧
    (audioMainLoop 2 scenario_written).2 =
      [ { ptr := SinkPtr.buffer 0, data := constant_frames 512 0x12345678 },
        { ptr := SinkPtr.zeroBuffer, data := List.replicate (4 * 512) 0 } ] := by
  have hsil := audioMainLoop_body_silence scenario_first
    (by rw [scenario_first_available]; omega)
  refine ⟨?_, scenario_first_emit, scenario_written_cursors.1, ?_, scenario_first_available,
    ?_, scenario_second_emit, ?_, ?_⟩
  · show sampleCount (4 * 1024) = 1024
    exact sampleCount_frames 1024 (by omega)
  · rw [scenario_first_eq]
  · rw [scenario_first_buffer]
    exact scenario_written_frames 512 512 (by omega)
  · rw [hsil]
  · have hrun1 : scenario_written.running = true := rfl
    have hrun2 : scenario_first.running = true := by rw [scenario_first_eq]; rfl
    rw [audioMainLoop_succ 1 scenario_written hrun1]
    show [emit scenario_written, _] = _
    have h2 : (audioMainLoop 1 scenario_first).2 = [emit scenario_first] := by
      rw [audioMainLoop_succ 0 scenario_first hrun2]
      rfl
    show emit scenario_written :: (audioMainLoop 1 scenario_first).2 = _
    rw [h2, scenario_first_emit, scenario_second_emit]

/-! ## Claims about the free capacity -/

theorem psp_write_avail_eq (psp : psp1_audio_t) :
    psp_write_avail psp = 8192 - availableToRead psp.readPos psp.writePos := by
  have h := availableToRead_lt psp.readPos psp.writePos
  simp only [psp_write_avail, u32, AUDIO_BUFFER_SIZE]
  omega

/-- C7: for every cursor pair, in particular every pair in
`[0, 8192) x [0, 8192)`, the available-to-read count
`((uint16_t)(writePos - readPos) & 8191)` and `psp_write_avail` add up to
`psp_buffer_size`, which is 8192. -/
theorem available_sum (psp : psp1_audio_t) :
    (u16 ((psp.writePos : Int) - (psp.readPos : Int)) &&& 8191) + psp_write_avail psp
      = psp_buffer_size psp ∧
    availableToRead psp.readPos psp.writePos + psp_write_avail psp = psp_buffer_size psp ∧
    psp_buffer_size psp = 8192 := by
  have h := availableToRead_lt psp.readPos psp.writePos
  have e : u16 ((psp.writePos : Int) - (psp.readPos : Int)) &&& 8191
      = availableToRead psp.readPos psp.writePos := rfl
  have hs : psp_buffer_size psp = 8192 := rfl
  rw [e, psp_write_avail_eq, hs]
  omega

theorem write_all_cons (psp : psp1_audio_t) (w : List Nat × Nat) (ws : List (List Nat × Nat)) :
    write_all psp (w :: ws) = write_all (psp_audio_write psp w.1 w.2).1 ws := rfl

theorem total_frames_cons (w : List Nat × Nat) (ws : List (List Nat × Nat)) :
    total_frames (w :: ws) = w.2 / 4 + total_frames ws := by
  simp only [total_frames, List.map_cons, List.sum_cons, SIZEOF_UINT32]

theorem write_all_cursors (ws : List (List Nat × Nat)) :
    ∀ psp : psp1_audio_t, psp.writePos < 8192 →
      (write_all psp ws).readPos = psp.readPos ∧
      (write_all psp ws).writePos = (psp.writePos + total_frames ws) % 8192 := by
  induction ws with
  | nil =>
    intro psp h
    refine ⟨rfl, ?_⟩
    show psp.writePos = (psp.writePos + 0) % 8192
    omega
  | cons w ws ih =>
    intro psp _
    rw [write_all_cons, total_frames_cons]
    have h := ih (psp_audio_write psp w.1 w.2).1 (by rw [psp_audio_write_writePos]; omega)
    rw [psp_audio_write_readPos, psp_audio_write_writePos] at h
    refine ⟨h.1, ?_⟩
    rw [h.2]
    omega

theorem psp_write_avail_write_all (rate : Nat) (uid : Int) (ws : List (List Nat × Nat)) :
    psp_write_avail (write_all (init_session rate uid) ws) = 8192 - total_frames ws % 8192 := by
  have h := write_all_cursors ws (init_session rate uid) (by show 0 < 8192; omega)
  have h0 : (init_session rate uid).readPos = 0 := rfl
  have h1 : (init_session rate uid).writePos = 0 := rfl
  rw [h0, h1] at h
  rw [psp_write_avail_eq, h.1, h.2, availableToRead_of_lt _ _ (by omega) (by omega)]
  omega

/-- C8 as stated fails at `n = 8192`: after the fresh ring was filled
completely by one write of 8192 frames, `psp_write_avail` returns 8192, not
`8192 - 8192 = 0`. -/
theorem write_avail_counterexample :
    total_frames [(constant_frames 8192 0, 4 * 8192)] = 8192 ∧
    psp_write_avail (write_all (init_session 44100 1) [(constant_frames 8192 0, 4 * 8192)])
      ≠ 8192 - total_frames [(constant_frames 8192 0, 4 * 8192)] := by
  have ht : total_frames [(constant_frames 8192 0, 4 * 8192)] = 8192 := by rfl
  refine ⟨ht, ?_⟩
  rw [psp_write_avail_write_all, ht]
  decide

/-- C8 amended: in the state reached from `psp_audio_init` by writes totalling
`n ≤ 8192` frames with no consumer iteration in between, `psp_write_avail`
returns `8192 - (n mod 8192)`: that is `8192 - n` for `n < 8192`, and 8192
(not 0) when the ring has been filled completely, a state whose cursors are
those of the empty ring. -/
theorem write_avail_after_writes (rate : Nat) (uid : Int) (ws : List (List Nat × Nat))
    (h : total_frames ws ≤ 8192) :
    psp_write_avail (write_all (init_session rate uid) ws) = 8192 - total_frames ws % 8192 ∧
    (total_frames ws < 8192 →
      psp_write_avail (write_all (init_session rate uid) ws) = 8192 - total_frames ws) ∧
    (total_frames ws = 8192 →
      psp_write_avail (write_all (init_session rate uid) ws) = 8192 ∧
      (write_all (init_session rate uid) ws).writePos = (write_all (init_session rate uid) ws).readPos)
    := by
  have hc := write_all_cursors ws (init_session rate uid) (by show 0 < 8192; omega)
  have h0 : (init_session rate uid).readPos = 0 := rfl
  have h1 : (init_session rate uid).writePos = 0 := rfl
  rw [h0, h1] at hc
  rw [psp_write_avail_write_all]
  refine ⟨rfl, ?_, ?_⟩
  · intro hlt; omega
  · intro heq
    refine ⟨by omega, ?_⟩
    rw [hc.1, hc.2]
    omega

/-- Witness for C8 amended: two writes of 100 and 200 frames leave 7892 free. -/
theorem write_avail_after_writes_witness :
    psp_write_avail (write_all (init_session 44100 1)
      [(constant_frames 100 1, 400), (constant_frames 200 2, 800)]) = 7892 :=
  (write_avail_after_writes 44100 1 [(constant_frames 100 1, 400), (constant_frames 200 2, 800)]
    (by decide)).1

/-! ## Claims about the returned frame count -/

theorem psp_audio_write_snd (psp : psp1_audio_t) (buf : List Nat) (size : Nat) :
    (psp_audio_write psp buf size).2 = sampleCount size := rfl

/-- C9 as stated fails: a write of 73729 frames (294916 bytes) into the fresh
ring returns 8193, not 73729; both copies it makes stay inside the storage
and the input. -/
theorem write_return_counterexample :
    (psp_audio_write (init_session 44100 1) (constant_frames 73729 1) 294916).2 = 8193 ∧
    294916 / 4 = 73729 ∧
    (psp_audio_write (init_session 44100 1) (constant_frames 73729 1) 294916).2 ≠ 294916 / 4 ∧
    psp_audio_write_memcpys (init_session 44100 1).writePos 294916
      = [ { dst := 0, src := 0, n := 32768 }, { dst := 0, src := 32768, n := 4 } ] := by
  refine ⟨?_, by decide, ?_, ?_⟩
  · rw [psp_audio_write_snd, sampleCount_eq]
  · rw [psp_audio_write_snd, sampleCount_eq]
    decide
  · rfl

/-- C9 amended: for every byte length `size`, `psp_audio_write` returns the
frame count `size / 4` reduced to 16 bits, `(size / 4) mod 65536`; this is
`size / 4` itself whenever `size / 4 < 65536`, in particular for every count
up to the capacity. -/
theorem psp_audio_write_return (psp : psp1_audio_t) (buf : List Nat) (size : Nat) :
    (psp_audio_write psp buf size).2 = size / 4 % 65536 ∧
    (size / 4 < 65536 → (psp_audio_write psp buf size).2 = size / 4) := by
  rw [psp_audio_write_snd, sampleCount_eq]
  refine ⟨rfl, ?_⟩
  intro h
  omega

/-- Witness for C9 amended: 4096 bytes make 1024 frames. -/
theorem psp_audio_write_return_witness :
    (psp_audio_write (init_session 44100 1) (constant_frames 1024 1) 4096).2 = 4096 / 4 :=
  (psp_audio_write_return (init_session 44100 1) (constant_frames 1024 1) 4096).2 (by decide)

/-! ## Claims about the lifecycle -/

theorem psp_audio_stop_refused (stopped : Int) (psp : psp1_audio_t) (q : RunStatus)
    (h : q.ret < 0 ∨ q.status = stopped) : psp_audio_stop stopped psp q = (false, psp, []) := by
  simp only [psp_audio_stop]
  by_cases h1 : q.ret < 0
  · rw [if_pos h1]
  · rw [if_neg h1]
    have h2 : q.status = stopped := by
      rcases h with h | h
      · exact absurd h h1
      · exact h
    rw [if_pos h2]

theorem psp_audio_stop_accepted (stopped : Int) (psp : psp1_audio_t) (q : RunStatus)
    (h1 : ¬ q.ret < 0) (h2 : q.status ≠ stopped) :
    psp_audio_stop stopped psp q =
      (true, { psp with running := false }, [KernelCall.waitThreadEnd psp.thread 100000]) := by
  simp only [psp_audio_stop]
  rw [if_neg h1, if_neg h2]

/-- C10 as stated fails: with `PSP_THREAD_STOPPED = 16`, when the status query
of both calls succeeds and reports the thread as waiting (status 4, the
consumer still blocked in the sink after the bounded join of the first call
returned), both calls of `psp_audio_stop` return true. -/
theorem psp_audio_stop_twice_counterexample :
    (psp_audio_stop 16 (init_session 44100 1) { ret := 0, status := 4 }).1 = true ∧
    (psp_audio_stop 16
      (psp_audio_stop 16 (init_session 44100 1) { ret := 0, status := 4 }).2.1
      { ret := 0, status := 4 }).1 = true := by
  constructor
  · rw [psp_audio_stop_accepted 16 _ _ (by decide) (by decide)]
  · rw [psp_audio_stop_accepted 16 _ _ (by decide) (by decide)]

/-- C10 amended: when `psp_audio_stop` is called twice in a row with no
intervening `psp_audio_start`, the second call returns failure exactly when
the status query it makes fails or reports the thread stopped, as the task
runtime does once the consumer has left its loop after the first call; it
then changes nothing and joins nothing. If the thread is still reported as
not stopped, the second call returns success again. -/
theorem psp_audio_stop_twice (stopped : Int) (psp : psp1_audio_t) (q1 q2 : RunStatus) :
    ((psp_audio_stop stopped (psp_audio_stop stopped psp q1).2.1 q2).1 = false ↔
      (q2.ret < 0 ∨ q2.status = stopped)) ∧
    ((q2.ret < 0 ∨ q2.status = stopped) →
      (psp_audio_stop stopped (psp_audio_stop stopped psp q1).2.1 q2).2.1
        = (psp_audio_stop stopped psp q1).2.1 ∧
      (psp_audio_stop stopped (psp_audio_stop stopped psp q1).2.1 q2).2.2 = []) := by
  constructor
  · constructor
    · intro h
      by_cases h1 : q2.ret < 0
      · exact Or.inl h1
      · by_cases h2 : q2.status = stopped
        · exact Or.inr h2
        · rw [psp_audio_stop_accepted stopped _ q2 h1 h2] at h
          cases h
    · intro h
      rw [psp_audio_stop_refused stopped _ q2 h]
  · intro h
    rw [psp_audio_stop_refused stopped _ q2 h]
    exact ⟨rfl, rfl⟩

/-- Witness for C10 amended: the first call succeeds, the second query reports
the thread stopped, and the second call returns false. -/
theorem psp_audio_stop_twice_witness :
    (psp_audio_stop 16 (init_session 44100 1) { ret := 0, status := 1 }).1 = true ∧
    (psp_audio_stop 16
      (psp_audio_stop 16 (init_session 44100 1) { ret := 0, status := 1 }).2.1
      { ret := 0, status := 16 }).1 = false :=
  ⟨by rw [psp_audio_stop_accepted 16 _ _ (by decide) (by decide)],
   (psp_audio_stop_twice 16 (init_session 44100 1) { ret := 0, status := 1 }
      { ret := 0, status := 16 }).1.2 (Or.inr rfl)⟩

/-- C11: invalid transitions are refused atomically. `psp_audio_start` returns
false whenever the status query fails or reports a status other than stopped,
and `psp_audio_stop` returns false whenever the query fails or reports
stopped; in each of these cases the driver state (running flag, cursors,
storage, nonblocking flag) is returned unchanged and no kernel call is made,
so no task is spawned or joined. In the remaining cases the call returns true. -/
theorem invalid_transition_refused (stopped : Int) (psp : psp1_audio_t) (q : RunStatus) :
    ((q.ret < 0 ∨ q.status ≠ stopped) → psp_audio_start stopped psp q = (false, psp, [])) ∧
    ((q.ret < 0 ∨ q.status = stopped) → psp_audio_stop stopped psp q = (false, psp, [])) ∧
    (¬ (q.ret < 0 ∨ q.status ≠ stopped) →
      psp_audio_start stopped psp q
        = (true, { psp with running := true }, [KernelCall.startThread psp.thread])) ∧
    (¬ (q.ret < 0 ∨ q.status = stopped) → (psp_audio_stop stopped psp q).1 = true) := by
  refine ⟨?_, psp_audio_stop_refused stopped psp q, ?_, ?_⟩
  · intro h
    simp only [psp_audio_start]
    by_cases h1 : q.ret < 0
    · rw [if_pos h1]
    · rw [if_neg h1]
      have h2 : q.status ≠ stopped := by
        rcases h with h | h
        · exact absurd h h1
        · exact h
      rw [if_pos h2]
  · intro h
    have h1 : ¬ q.ret < 0 := fun hc => h (Or.inl hc)
    have h2 : ¬ q.status ≠ stopped := fun hc => h (Or.inr hc)
    simp only [psp_audio_start]
    rw [if_neg h1, if_neg h2]
  · intro h
    have h1 : ¬ q.ret < 0 := fun hc => h (Or.inl hc)
    have h2 : q.status ≠ stopped := fun hc => h (Or.inr hc)
    rw [psp_audio_stop_accepted stopped psp q h1 h2]

/-- Witness for C11: start on a thread reported as running (status 1, with
`PSP_THREAD_STOPPED = 16`), and stop after a failed status query. -/
theorem invalid_transition_refused_witness :
    psp_audio_start 16 (init_session 44100 1) { ret := 0, status := 1 }
      = (false, init_session 44100 1, []) ∧
    psp_audio_stop 16 (init_session 44100 1) { ret := -1, status := 1 }
      = (false, init_session 44100 1, []) :=
  ⟨(invalid_transition_refused 16 (init_session 44100 1) { ret := 0, status := 1 }).1
      (Or.inr (by decide)),
   (invalid_transition_refused 16 (init_session 44100 1) { ret := -1, status := 1 }).2.1
      (Or.inl (by decide))⟩

/-- C12: the nonblocking flag is inert. For two driver states that differ
only in the `nonblocking` field and any input buffer and size,
`psp_audio_write` returns the same value and produces the same storage and
the same `writePos` (the two results again differ only in that field); and
`psp_audio_set_nonblock_state` changes no field other than `nonblocking`. -/
theorem nonblocking_inert (psp : psp1_audio_t) (flag toggle : Bool) (buf : List Nat)
    (size : Nat) :
    (psp_audio_write { psp with nonblocking := flag } buf size).2
      = (psp_audio_write psp buf size).2 ∧
    (psp_audio_write { psp with nonblocking := flag } buf size).1.buffer
      = (psp_audio_write psp buf size).1.buffer ∧
    (psp_audio_write { psp with nonblocking := flag } buf size).1.writePos
      = (psp_audio_write psp buf size).1.writePos ∧
    (psp_audio_write { psp with nonblocking := flag } buf size).1
      = { (psp_audio_write psp buf size).1 with nonblocking := flag } ∧
    psp_audio_set_nonblock_state (some psp) toggle = some { psp with nonblocking := toggle } ∧
    psp_audio_set_nonblock_state none toggle = none :=
  ⟨rfl, rfl, rfl, rfl, rfl, rfl⟩

/-- C13: single-writer frame. A `psp_audio_write` whose copies stay inside
the storage and the caller's buffer changes only the storage and `writePos`
(`readPos`, `running`, `nonblocking`, `rate`, the silence chunk and the thread
id are unchanged); one iteration of the consumer loop changes only `readPos`;
the query functions `psp_write_avail`, `psp_buffer_size`, `psp_audio_alive` and
`psp_audio_use_float` assign no field, they return values read from the state
and leave it as it is; hence every operation other than stop, start and free
leaves the running flag unchanged. A write that overruns the storage is
undefined in C and is outside this statement. -/
theorem single_writer_frame (psp : psp1_audio_t) :
    (∀ buf size, write_in_bounds psp buf size →
      (psp_audio_write psp buf size).1 =
        { psp with buffer := (psp_audio_write psp buf size).1.buffer,
                   writePos := (psp_audio_write psp buf size).1.writePos }) ∧
    (audioMainLoop_body psp).1 = { psp with readPos := (audioMainLoop_body psp).1.readPos } ∧
    Op.run Op.write_avail psp = psp ∧ Op.run Op.buffer_size psp = psp ∧
    Op.run Op.alive psp = psp ∧ Op.run Op.use_float psp = psp ∧
    psp_audio_alive (some psp) = psp.running ∧ psp_audio_use_float (some psp) = false ∧
    psp_buffer_size psp = 8192 ∧
    psp_write_avail psp = 8192 - availableToRead psp.readPos psp.writePos ∧
    (∀ op : Op, op.lifecycle = false → op.defined psp →
      (op.run psp).running = psp.running) := by
  refine ⟨fun _ _ _ => rfl, ?_, rfl, rfl, rfl, rfl, rfl, rfl, rfl, psp_write_avail_eq psp, ?_⟩
  · by_cases hav : availableToRead psp.readPos psp.writePos < 1024
    · rw [audioMainLoop_body_silence psp hav]
    · rw [audioMainLoop_body_data psp (by omega)]
  · intro op hop _
    cases op with
    | write buf size => rfl
    | consume =>
      show (audioMainLoop_body psp).1.running = psp.running
      by_cases hav : availableToRead psp.readPos psp.writePos < 1024
      · rw [audioMainLoop_body_silence psp hav]
      · rw [audioMainLoop_body_data psp (by omega)]
    | stop stopped q => cases hop
    | start stopped q => cases hop
    | alive => rfl
    | set_nonblock_state toggle => rfl
    | free => cases hop
    | use_float => rfl
    | write_avail => rfl
    | buffer_size => rfl

/-- Witness for C13: an in-bounds write of 100 frames leaves the running flag
of the fresh session. -/
theorem single_writer_frame_witness :
    ((Op.write (constant_frames 100 1) (4 * 100)).run (init_session 44100 1)).running
      = (init_session 44100 1).running :=
  (single_writer_frame (init_session 44100 1)).2.2.2.2.2.2.2.2.2.2
    (Op.write (constant_frames 100 1) (4 * 100)) rfl
    (write_in_bounds_frames (init_session 44100 1) (constant_frames 100 1) 100
      (by decide) (by decide) (List.length_replicate _ _) (constant_frames_length _ _))

/-- C14 fails on the code at a failed `memalign`: when `calloc` succeeds and
the allocation of the ring storage, or of the silence chunk, fails,
`psp_audio_init` does not return `NULL`: it passes the null pointer to
`memset`. Only a failed `calloc` yields `NULL`. -/
theorem psp_audio_init_unchecked_memalign :
    psp_audio_init 44100 true false true 1 = InitResult.fault ∧
    psp_audio_init 44100 true true false 1 = InitResult.fault ∧
    psp_audio_init 44100 true false true 1 ≠ InitResult.null ∧
    psp_audio_init 44100 false true true 1 = InitResult.null := by
  refine ⟨rfl, rfl, ?_, rfl⟩
  intro h
  cases h

/-- C15: for every cursor pair `readPos, writePos` in `[0, 8192)`, also when
`writePos < readPos` and the C subtraction is negative before the cast,
`((uint16_t)(writePos - readPos) & 8191)` is the mathematical
`(writePos - readPos) mod 8192`; hence available-to-read lies in `[0, 8191]`
and `psp_write_avail` lies in `[1, 8192]`. -/
theorem available_is_mod (psp : psp1_audio_t) (hr : psp.readPos < 8192)
    (hw : psp.writePos < 8192) :
    ((u16 ((psp.writePos : Int) - (psp.readPos : Int)) &&& 8191 : Nat) : Int)
      = ((psp.writePos : Int) - (psp.readPos : Int)) % 8192 ∧
    availableToRead psp.readPos psp.writePos ≤ 8191 ∧
    1 ≤ psp_write_avail psp ∧ psp_write_avail psp ≤ 8192 ∧
    psp_write_avail psp = 8192 - availableToRead psp.readPos psp.writePos := by
  have e : u16 ((psp.writePos : Int) - (psp.readPos : Int)) &&& 8191
      = availableToRead psp.readPos psp.writePos := rfl
  have h := availableToRead_of_lt _ _ hr hw
  rw [e, psp_write_avail_eq, h]
  omega

/-- Witness for C15: read cursor 7680, write cursor 512, where the C
subtraction gives -7168. -/
theorem available_is_mod_witness :
    ((u16 ((512 : Int) - (7680 : Int)) &&& 8191 : Nat) : Int) = ((512 : Int) - 7680) % 8192 :=
  (available_is_mod buffered_session (by decide) (by decide)).1

/-- C16: cursor invariant. In every state reachable from `psp_audio_init` by
any sequence of `psp_audio_write` calls (with any size), consumer iterations
and the other driver operations, `readPos < 8192`, `writePos < 8192` and
`readPos` is a multiple of the chunk size 512; consequently
`readPos + 512 ≤ 8192`, and the 512-frame range the consumer hands to the sink
in its data branch lies inside the storage and does not straddle the end of
the ring. -/
theorem cursor_invariant (psp : psp1_audio_t) (h : Reachable psp) :
    psp.readPos < 8192 ∧ psp.writePos < 8192 ∧ psp.readPos % 512 = 0 ∧
    psp.readPos + 512 ≤ 8192 ∧
    SIZEOF_UINT32 * (psp.readPos + AUDIO_OUT_COUNT) ≤ psp.buffer.length ∧
    psp.buffer.length = SIZEOF_UINT32 * AUDIO_BUFFER_SIZE ∧
    (1024 ≤ availableToRead psp.readPos psp.writePos →
      (emit psp).ptr = SinkPtr.buffer psp.readPos ∧
      (emit psp).data.length = SIZEOF_UINT32 * AUDIO_OUT_COUNT) := by
  obtain ⟨h2, h3, h4, h5⟩ := h.invariant
  have hlen : psp.buffer.length = SIZEOF_UINT32 * AUDIO_BUFFER_SIZE := h2
  refine ⟨h4, h5, h3, by omega, ?_, hlen, ?_⟩
  · simp only [SIZEOF_UINT32, AUDIO_OUT_COUNT]; omega
  · intro hge
    have hb := audioMainLoop_body_data psp hge
    constructor
    · simp only [emit, hb]
    · simp only [emit, hb, sink_read]
      exact frames_length _ _ _ (by simp only [AUDIO_OUT_COUNT]; omega)

/-- Witness for C16: the state after a write of 73729 frames and one consumer
iteration. -/
theorem cursor_invariant_witness :
    (audioMainLoop_body
      (psp_audio_write (init_session 44100 1) (constant_frames 73729 1) 294916).1).1.readPos
        + 512 ≤ 8192 :=
  (cursor_invariant _ (Reachable.consume _
    (Reachable.write _ (constant_frames 73729 1) 294916 (Reachable.init 44100 1)))).2.2.2.1

/-! ## Byte extent of the copies -/

theorem last_frame_session_reachable : Reachable last_frame_session :=
  Reachable.write _ (constant_frames 8191 0) (4 * 8191) (Reachable.init 44100 1)

theorem last_frame_session_writePos : last_frame_session.writePos = 8191 := by
  have h := (write_all_cursors [(constant_frames 8191 0, 4 * 8191)] (init_session 44100 1)
    (by show 0 < 8192; omega)).2
  have h1 : (init_session 44100 1).writePos = 0 := rfl
  have h2 : total_frames [(constant_frames 8191 0, 4 * 8191)] = 8191 := by rfl
  rw [h1, h2] at h
  exact h

/-- For a cursor below 8192 and a byte length of at most 8192 frames, the
copies of `psp_audio_write` stay inside the 32768 bytes of storage except in
one case: the single-copy branch taken with the write ending exactly at the
end of the ring and a byte length that is not a multiple of 4. -/
theorem psp_audio_write_memcpys_extent (w size : Nat) (hw : w < 8192) (hs : size / 4 ≤ 8192) :
    (∀ c ∈ psp_audio_write_memcpys w size, c.dst + c.n ≤ 32768) ↔
      ¬ (w + size / 4 = 8192 ∧ size % 4 ≠ 0) := by
  have hsc : sampleCount size = size / 4 := by rw [sampleCount_eq]; omega
  by_cases h : w + size / 4 > 8192
  · have h1 : u32 ((8192 : Int) - (w : Int)) = 8192 - w := by simp only [u32]; omega
    have h2 : u32 (((8192 - w : Nat) : Int) * 4) = 4 * (8192 - w) := by simp only [u32]; omega
    have h3 : u32 ((w : Int) + ((size / 4 : Nat) : Int) - 8192) = w + size / 4 - 8192 := by
      simp only [u32]; omega
    have h4 : u32 (((w + size / 4 - 8192 : Nat) : Int) * 4) = 4 * (w + size / 4 - 8192) := by
      simp only [u32]; omega
    simp only [psp_audio_write_memcpys, hsc, AUDIO_BUFFER_SIZE, SIZEOF_UINT32]
    simp only [show (1 <<< 13 : Nat) = 8192 from rfl, Nat.cast_ofNat, if_pos h, h1, h2, h3, h4,
      List.mem_cons, List.mem_singleton, List.not_mem_nil, or_false]
    constructor
    · intro _; omega
    · intro _ c hc
      rcases hc with rfl | rfl
      · show 4 * w + 4 * (8192 - w) ≤ 32768
        omega
      · show 0 + 4 * (w + size / 4 - 8192) ≤ 32768
        omega
  · simp only [psp_audio_write_memcpys, hsc, AUDIO_BUFFER_SIZE, SIZEOF_UINT32]
    simp only [show (1 <<< 13 : Nat) = 8192 from rfl, if_neg h, List.mem_singleton]
    constructor
    · intro hall
      have := hall _ rfl
      simp only at this
      omega
    · intro hne c hc
      subst hc
      show 4 * w + size ≤ 32768
      omega

/-- C17 fails on the code: in the reachable state with `writePos = 8191`, a
write of 7 bytes (`size / 4 = 1`) takes the single-copy branch, which copies
`size` bytes at frame index `writePos`, and so writes bytes 32764 to 32770, three
bytes past the 32768 bytes of the ring storage. -/
theorem write_past_storage :
    Reachable last_frame_session ∧ last_frame_session.writePos = 8191 ∧
    last_frame_session.buffer.length = 4 * 8192 ∧ 7 / 4 ≤ 8192 ∧
    psp_audio_write_memcpys last_frame_session.writePos 7
      = [ { dst := 32764, src := 0, n := 7 } ] ∧
    ¬ Memcpy.inBounds (4 * 8192) 7 { dst := 32764, src := 0, n := 7 } := by
  refine ⟨last_frame_session_reachable, last_frame_session_writePos,
    last_frame_session_reachable.invariant.1, by decide, ?_, by decide⟩
  rw [last_frame_session_writePos]
  rfl

end Psp1Audio

namespace KeyboardEventX11

/-! ## Leading ones and bit arithmetic -/

theorem leading_ones_loop_lt (c ones : Nat) (h : c < 128) : leading_ones_loop c ones = ones := by
  have hsmall : ∀ x, x < 128 → x &&& 0x80 = 0 := by decide
  rw [leading_ones_loop]
  simp [hsmall c h]

set_option maxRecDepth 8192 in
theorem and_128_ne_zero : ∀ x, x < 256 → 128 ≤ x → x &&& 0x80 ≠ 0 := by decide

theorem leading_ones_loop_ge (c ones : Nat) (h : 128 ≤ c) (h2 : c < 256) :
    leading_ones_loop c ones = leading_ones_loop (2 * c - 256) (ones + 1) := by
  have hbig := and_128_ne_zero
  rw [leading_ones_loop]
  have e : (c <<< 1) % 256 = 2 * c - 256 := by
    rw [Nat.shiftLeft_eq]; omega
  simp [hbig c h2 h, e]

/-- The count of leading one bits of a byte, as computed by `leading_ones`. -/
theorem leading_ones_eq (c : Nat) (h : c < 256) :
    leading_ones c =
      if c < 128 then 0 else if c < 192 then 1 else if c < 224 then 2
      else if c < 240 then 3 else if c < 248 then 4 else if c < 252 then 5
      else if c < 254 then 6 else if c < 255 then 7 else 8 := by
  have hc : c % 256 = c := by omega
  simp only [leading_ones, hc]
  split_ifs <;>
    repeat (first
      | rw [leading_ones_loop_lt _ _ (by omega)]
      | rw [leading_ones_loop_ge _ _ (by omega) (by omega)])

theorem leading_ones_le (c : Nat) : leading_ones c ≤ 8 := by
  have h : leading_ones c = leading_ones (c % 256) := by
    simp only [leading_ones, Nat.mod_mod]
  rw [h, leading_ones_eq (c % 256) (by omega)]
  split_ifs <;> omega

theorem and_low_mask (x k : Nat) : x &&& ((1 <<< k) - 1) = x % 2 ^ k := by
  rw [Nat.one_shiftLeft]
  exact Nat.and_pow_two_sub_one_eq_mod x k

theorem and_63 (x : Nat) : x &&& 0x3f = x % 64 :=
  Nat.and_pow_two_sub_one_eq_mod x 6

theorem or_shift_digit (v e s : Nat) (he : e < 64) :
    (v <<< (6 * (s + 1))) ||| (e <<< (6 * s)) = (v * 64 + e) <<< (6 * s) := by
  rw [Nat.shiftLeft_eq, Nat.shiftLeft_eq, Nat.shiftLeft_eq]
  have hlt : e * 2 ^ (6 * s) < 2 ^ (6 * (s + 1)) := by
    have : 2 ^ (6 * (s + 1)) = 64 * 2 ^ (6 * s) := by
      rw [Nat.mul_add, Nat.pow_add]; ring
    rw [this]
    exact Nat.mul_lt_mul_of_pos_right he (Nat.two_pow_pos _)
  have h := Nat.mul_add_lt_is_or hlt v
  rw [Nat.mul_comm v, ← h]
  have : 2 ^ (6 * (s + 1)) = 64 * 2 ^ (6 * s) := by
    rw [Nat.mul_add, Nat.pow_add]; ring
  rw [this]; ring

/-! ## The continuation loop -/

theorem getD_of_drop (inp l : List Nat) (pos i : Nat) (h : inp.drop pos = l) :
    inp.getD (pos + i) 0 = l.getD i 0 := by
  subst h
  simp only [List.getD_eq_getElem?_getD, List.getElem?_drop]

theorem drop_succ_of_drop (inp rest : List Nat) (pos d : Nat) (h : inp.drop pos = d :: rest) :
    inp.drop (pos + 1) = rest := by
  rw [← List.drop_drop, h]
  rfl

theorem conv_continuation_reads (inp : List Nat) (n : Nat) :
    ∀ pos shift c, (conv_continuation inp n pos shift c).2 = List.range' pos n := by
  induction n with
  | zero => intro pos shift c; rfl
  | succ n ih =>
    intro pos shift c
    simp only [conv_continuation, ih, List.range'_succ]

theorem conv_continuation_digits (inp rest : List Nat) :
    ∀ (ds : List Nat) (pos shift v : Nat), inp.drop pos = ds ++ rest → ds.length ≤ 5 →
      (ds.length ≠ 0 → shift = 6 * (ds.length - 1)) →
      (conv_continuation inp ds.length pos shift (v <<< (6 * ds.length))).1
        = ds.foldl (fun a d => a * 64 + d % 64) v := by
  intro ds
  induction ds with
  | nil =>
    intro pos shift v _ _ _
    simp [conv_continuation]
  | cons d ds ih =>
    intro pos shift v hdrop hlen hshift
    have hs : shift = 6 * ds.length := by
      have := hshift (by simp)
      simpa using this
    have hd : inp.getD pos 0 = d := by
      have := getD_of_drop inp _ pos 0 hdrop
      simpa using this
    simp only [List.length_cons, conv_continuation, List.foldl_cons, hd, and_63, hs]
    rw [or_shift_digit v (d % 64) ds.length (Nat.mod_lt _ (by omega))]
    apply ih (pos + 1) _ (v * 64 + d % 64)
    · exact drop_succ_of_drop inp _ pos d hdrop
    · simp only [List.length_cons] at hlen; omega
    · intro hne
      simp only [List.length_cons] at hlen
      simp only [Psp1Audio.u32]
      omega

/-! ## One step of the decoding loop -/

theorem conv_loop_empty (inp : List Nat) (oc pos : Nat) (r : ConvResult) :
    conv_loop inp oc 0 pos r = r := by
  cases oc with
  | zero => rfl
  | succ oc => simp [conv_loop]

theorem conv_loop_reject (inp : List Nat) (oc n pos : Nat) (r : ConvResult) (h0 : n ≠ 0)
    (hrej : rejected (inp.getD pos 0 % 256) n) :
    conv_loop inp (oc + 1) n pos r = { r with reads := r.reads ++ [pos] } := by
  simp only [conv_loop, if_neg h0]
  by_cases h1 : leading_ones (inp.getD pos 0 % 256) > 6 ∨ leading_ones (inp.getD pos 0 % 256) = 1
  · rw [if_pos h1]
  · rw [if_neg h1]
    have h2 : 1 + (if leading_ones (inp.getD pos 0 % 256) ≠ 0
        then leading_ones (inp.getD pos 0 % 256) - 1
        else leading_ones (inp.getD pos 0 % 256)) > n := by
      rcases hrej with h | h | h
      · exact absurd (Or.inr h) h1
      · exact absurd (Or.inl h) h1
      · exact h
    rw [if_pos h2]

theorem conv_loop_accept (inp : List Nat) (oc n pos : Nat) (r : ConvResult) (h0 : n ≠ 0)
    (hacc : ¬ rejected (inp.getD pos 0 % 256) n) :
    conv_loop inp (oc + 1) n pos r =
      conv_loop inp oc
        (n - (1 + (if leading_ones (inp.getD pos 0 % 256) ≠ 0
          then leading_ones (inp.getD pos 0 % 256) - 1
          else leading_ones (inp.getD pos 0 % 256))))
        (pos + 1 + (if leading_ones (inp.getD pos 0 % 256) ≠ 0
          then leading_ones (inp.getD pos 0 % 256) - 1
          else leading_ones (inp.getD pos 0 % 256)))
        { ret := r.ret + 1
          out := r.out.set r.ret
            (conv_continuation inp
              (if leading_ones (inp.getD pos 0 % 256) ≠ 0
                then leading_ones (inp.getD pos 0 % 256) - 1
                else leading_ones (inp.getD pos 0 % 256))
              (pos + 1)
              (Psp1Audio.u32 ((((if leading_ones (inp.getD pos 0 % 256) ≠ 0
                then leading_ones (inp.getD pos 0 % 256) - 1
                else leading_ones (inp.getD pos 0 % 256) : Nat) : Int) - 1) * 6))
              ((inp.getD pos 0 % 256 &&&
                  ((1 <<< (7 - leading_ones (inp.getD pos 0 % 256))) - 1))
                <<< (6 * (if leading_ones (inp.getD pos 0 % 256) ≠ 0
                  then leading_ones (inp.getD pos 0 % 256) - 1
                  else leading_ones (inp.getD pos 0 % 256))))).1
          reads := r.reads ++ List.range' pos
            (1 + (if leading_ones (inp.getD pos 0 % 256) ≠ 0
              then leading_ones (inp.getD pos 0 % 256) - 1
              else leading_ones (inp.getD pos 0 % 256)))
          writes := r.writes ++ [r.ret] } := by
  have h1 : ¬ (leading_ones (inp.getD pos 0 % 256) > 6 ∨
      leading_ones (inp.getD pos 0 % 256) = 1) := by
    intro h
    apply hacc
    rcases h with h | h
    · exact Or.inr (Or.inl h)
    · exact Or.inl h
  have h2 : ¬ (1 + (if leading_ones (inp.getD pos 0 % 256) ≠ 0
      then leading_ones (inp.getD pos 0 % 256) - 1
      else leading_ones (inp.getD pos 0 % 256)) > n) := by
    intro h
    exact hacc (Or.inr (Or.inr h))
  simp only [conv_loop, if_neg h0, if_neg h1, if_neg h2, conv_continuation_reads]
  congr 2
  rw [List.append_assoc, Nat.add_comm 1, List.range'_succ]
  rfl

/-! ## Decoding one well-formed sequence -/

theorem leading_ones_0 (b : Nat) (hlo : 0 ≤ b) (hhi : b < 128) : leading_ones b = 0 := by
  have hb : b % 256 = b := by omega
  simp only [leading_ones, hb]
  rw [leading_ones_loop_lt _ _ (by omega)]

theorem leading_ones_2 (b : Nat) (hlo : 192 ≤ b) (hhi : b < 224) : leading_ones b = 2 := by
  have hb : b % 256 = b := by omega
  simp only [leading_ones, hb]
  rw [leading_ones_loop_ge _ _ (by omega) (by omega)]
  rw [leading_ones_loop_ge _ _ (by omega) (by omega)]
  rw [leading_ones_loop_lt _ _ (by omega)]

theorem leading_ones_3 (b : Nat) (hlo : 224 ≤ b) (hhi : b < 240) : leading_ones b = 3 := by
  have hb : b % 256 = b := by omega
  simp only [leading_ones, hb]
  rw [leading_ones_loop_ge _ _ (by omega) (by omega)]
  rw [leading_ones_loop_ge _ _ (by omega) (by omega)]
  rw [leading_ones_loop_ge _ _ (by omega) (by omega)]
  rw [leading_ones_loop_lt _ _ (by omega)]

theorem leading_ones_4 (b : Nat) (hlo : 240 ≤ b) (hhi : b < 248) : leading_ones b = 4 := by
  have hb : b % 256 = b := by omega
  simp only [leading_ones, hb]
  rw [leading_ones_loop_ge _ _ (by omega) (by omega)]
  rw [leading_ones_loop_ge _ _ (by omega) (by omega)]
  rw [leading_ones_loop_ge _ _ (by omega) (by omega)]
  rw [leading_ones_loop_ge _ _ (by omega) (by omega)]
  rw [leading_ones_loop_lt _ _ (by omega)]

theorem leading_ones_5 (b : Nat) (hlo : 248 ≤ b) (hhi : b < 252) : leading_ones b = 5 := by
  have hb : b % 256 = b := by omega
  simp only [leading_ones, hb]
  rw [leading_ones_loop_ge _ _ (by omega) (by omega)]
  rw [leading_ones_loop_ge _ _ (by omega) (by omega)]
  rw [leading_ones_loop_ge _ _ (by omega) (by omega)]
  rw [leading_ones_loop_ge _ _ (by omega) (by omega)]
  rw [leading_ones_loop_ge _ _ (by omega) (by omega)]
  rw [leading_ones_loop_lt _ _ (by omega)]

theorem leading_ones_6 (b : Nat) (hlo : 252 ≤ b) (hhi : b < 254) : leading_ones b = 6 := by
  have hb : b % 256 = b := by omega
  simp only [leading_ones, hb]
  rw [leading_ones_loop_ge _ _ (by omega) (by omega)]
  rw [leading_ones_loop_ge _ _ (by omega) (by omega)]
  rw [leading_ones_loop_ge _ _ (by omega) (by omega)]
  rw [leading_ones_loop_ge _ _ (by omega) (by omega)]
  rw [leading_ones_loop_ge _ _ (by omega) (by omega)]
  rw [leading_ones_loop_ge _ _ (by omega) (by omega)]
  rw [leading_ones_loop_lt _ _ (by omega)]

theorem decode_seq (inp rest ds : List Nat) (lead ones oc n pos v len : Nat) (r : ConvResult)
    (hlead : lead < 256) (hones : leading_ones lead = ones) (hrange : ones ≤ 6)
    (hne1 : ones ≠ 1) (hlen : ds.length = if ones ≠ 0 then ones - 1 else ones)
    (hdrop : inp.drop pos = (lead :: ds) ++ rest)
    (hv : ds.foldl (fun a d => a * 64 + d % 64) (lead % 2 ^ (7 - ones)) = v)
    (hl : 1 + ds.length = len) (hsize : len ≤ n) :
    conv_loop inp (oc + 1) n pos r =
      conv_loop inp oc (n - len) (pos + len)
        { ret := r.ret + 1
          out := r.out.set r.ret v
          reads := r.reads ++ List.range' pos len
          writes := r.writes ++ [r.ret] } := by
  subst hv
  subst hl
  have hfirst : inp.getD pos 0 % 256 = lead := by
    have := getD_of_drop inp _ pos 0 hdrop
    simp only [Nat.add_zero, List.cons_append, List.getD_cons_zero] at this
    rw [this]; omega
  have hext : (if leading_ones lead ≠ 0 then leading_ones lead - 1 else leading_ones lead)
      = ds.length := by rw [hones, hlen]
  have hacc : ¬ rejected (inp.getD pos 0 % 256) n := by
    rw [hfirst]
    unfold rejected
    rw [hext, hones]
    omega
  rw [conv_loop_accept inp oc n pos r (by omega) hacc, hfirst, hext, hones, and_low_mask]
  have hdrop2 : inp.drop (pos + 1) = ds ++ rest := drop_succ_of_drop inp _ pos lead hdrop
  have hlen5 : ds.length ≤ 5 := by
    rw [hlen]; split_ifs <;> omega
  rw [conv_continuation_digits inp rest ds (pos + 1) _ (lead % 2 ^ (7 - ones)) hdrop2 hlen5
    (by
      intro hne
      unfold Psp1Audio.u32
      omega),
    Nat.add_assoc]

theorem decode_one_byte (inp rest : List Nat) (c oc n pos : Nat) (r : ConvResult)
    (hlo : 0 ≤ c) (hhi : c < 128)
    (hdrop : inp.drop pos =
      [c] ++ rest)
    (hsize : 1 ≤ n) :
    conv_loop inp (oc + 1) n pos r =
      conv_loop inp oc (n - 1) (pos + 1)
        { ret := r.ret + 1
          out := r.out.set r.ret c
          reads := r.reads ++ List.range' pos 1
          writes := r.writes ++ [r.ret] } := by
  have hones : leading_ones (c) = 0 := leading_ones_0 _ (by omega) (by omega)
  have e : (c) % 128 = c := by omega
  exact decode_seq inp rest
    []
    (c) 0 oc n pos c 1 r (by omega) hones (by omega) (by omega)
    rfl hdrop e rfl hsize

theorem decode_two_byte (inp rest : List Nat) (c oc n pos : Nat) (r : ConvResult)
    (hlo : 128 ≤ c) (hhi : c < 2048)
    (hdrop : inp.drop pos =
      [192 + c / 64,
        128 + c % 64] ++ rest)
    (hsize : 2 ≤ n) :
    conv_loop inp (oc + 1) n pos r =
      conv_loop inp oc (n - 2) (pos + 2)
        { ret := r.ret + 1
          out := r.out.set r.ret c
          reads := r.reads ++ List.range' pos 2
          writes := r.writes ++ [r.ret] } := by
  have hones : leading_ones (192 + c / 64) = 2 := leading_ones_2 _ (by omega) (by omega)
  have e : ((192 + c / 64) % 32) * 64
        + (128 + c % 64) % 64 = c := by omega
  exact decode_seq inp rest
    [128 + c % 64]
    (192 + c / 64) 2 oc n pos c 2 r (by omega) hones (by omega) (by omega)
    rfl hdrop e rfl hsize

theorem decode_three_byte (inp rest : List Nat) (c oc n pos : Nat) (r : ConvResult)
    (hlo : 2048 ≤ c) (hhi : c < 65536)
    (hdrop : inp.drop pos =
      [224 + c / 4096,
        128 + c / 64 % 64,
        128 + c % 64] ++ rest)
    (hsize : 3 ≤ n) :
    conv_loop inp (oc + 1) n pos r =
      conv_loop inp oc (n - 3) (pos + 3)
        { ret := r.ret + 1
          out := r.out.set r.ret c
          reads := r.reads ++ List.range' pos 3
          writes := r.writes ++ [r.ret] } := by
  have hones : leading_ones (224 + c / 4096) = 3 := leading_ones_3 _ (by omega) (by omega)
  have e : (((224 + c / 4096) % 16) * 64
        + (128 + c / 64 % 64) % 64) * 64
        + (128 + c % 64) % 64 = c := by omega
  exact decode_seq inp rest
    [128 + c / 64 % 64, 128 + c % 64]
    (224 + c / 4096) 3 oc n pos c 3 r (by omega) hones (by omega) (by omega)
    rfl hdrop e rfl hsize

theorem decode_four_byte (inp rest : List Nat) (c oc n pos : Nat) (r : ConvResult)
    (hlo : 65536 ≤ c) (hhi : c < 2097152)
    (hdrop : inp.drop pos =
      [240 + c / 262144,
        128 + c / 4096 % 64,
        128 + c / 64 % 64,
        128 + c % 64] ++ rest)
    (hsize : 4 ≤ n) :
    conv_loop inp (oc + 1) n pos r =
      conv_loop inp oc (n - 4) (pos + 4)
        { ret := r.ret + 1
          out := r.out.set r.ret c
          reads := r.reads ++ List.range' pos 4
          writes := r.writes ++ [r.ret] } := by
  have hones : leading_ones (240 + c / 262144) = 4 := leading_ones_4 _ (by omega) (by omega)
  have e : ((((240 + c / 262144) % 8) * 64
        + (128 + c / 4096 % 64) % 64) * 64
        + (128 + c / 64 % 64) % 64) * 64
        + (128 + c % 64) % 64 = c := by omega
  exact decode_seq inp rest
    [128 + c / 4096 % 64, 128 + c / 64 % 64, 128 + c % 64]
    (240 + c / 262144) 4 oc n pos c 4 r (by omega) hones (by omega) (by omega)
    rfl hdrop e rfl hsize

theorem decode_five_byte (inp rest : List Nat) (c oc n pos : Nat) (r : ConvResult)
    (hlo : 2097152 ≤ c) (hhi : c < 67108864)
    (hdrop : inp.drop pos =
      [248 + c / 16777216,
        128 + c / 262144 % 64,
        128 + c / 4096 % 64,
        128 + c / 64 % 64,
        128 + c % 64] ++ rest)
    (hsize : 5 ≤ n) :
    conv_loop inp (oc + 1) n pos r =
      conv_loop inp oc (n - 5) (pos + 5)
        { ret := r.ret + 1
          out := r.out.set r.ret c
          reads := r.reads ++ List.range' pos 5
          writes := r.writes ++ [r.ret] } := by
  have hones : leading_ones (248 + c / 16777216) = 5 := leading_ones_5 _ (by omega) (by omega)
  have e : (((((248 + c / 16777216) % 4) * 64
        + (128 + c / 262144 % 64) % 64) * 64
        + (128 + c / 4096 % 64) % 64) * 64
        + (128 + c / 64 % 64) % 64) * 64
        + (128 + c % 64) % 64 = c := by omega
  exact decode_seq inp rest
    [128 + c / 262144 % 64, 128 + c / 4096 % 64, 128 + c / 64 % 64, 128 + c % 64]
    (248 + c / 16777216) 5 oc n pos c 5 r (by omega) hones (by omega) (by omega)
    rfl hdrop e rfl hsize

theorem decode_six_byte (inp rest : List Nat) (c oc n pos : Nat) (r : ConvResult)
    (hlo : 67108864 ≤ c) (hhi : c < 2147483648)
    (hdrop : inp.drop pos =
      [252 + c / 1073741824,
        128 + c / 16777216 % 64,
        128 + c / 262144 % 64,
        128 + c / 4096 % 64,
        128 + c / 64 % 64,
        128 + c % 64] ++ rest)
    (hsize : 6 ≤ n) :
    conv_loop inp (oc + 1) n pos r =
      conv_loop inp oc (n - 6) (pos + 6)
        { ret := r.ret + 1
          out := r.out.set r.ret c
          reads := r.reads ++ List.range' pos 6
          writes := r.writes ++ [r.ret] } := by
  have hones : leading_ones (252 + c / 1073741824) = 6 := leading_ones_6 _ (by omega) (by omega)
  have e : ((((((252 + c / 1073741824) % 2) * 64
        + (128 + c / 16777216 % 64) % 64) * 64
        + (128 + c / 262144 % 64) % 64) * 64
        + (128 + c / 4096 % 64) % 64) * 64
        + (128 + c / 64 % 64) % 64) * 64
        + (128 + c % 64) % 64 = c := by omega
  exact decode_seq inp rest
    [128 + c / 16777216 % 64, 128 + c / 262144 % 64, 128 + c / 4096 % 64,
      128 + c / 64 % 64, 128 + c % 64]
    (252 + c / 1073741824) 6 oc n pos c 6 r (by omega) hones (by omega) (by omega)
    rfl hdrop e rfl hsize

theorem utf8_encode_cases (c : Nat) (hc : c < 2147483648) :
    (c < 128 ∧ utf8_encode c = [c]) ∨
    (128 ≤ c ∧ c < 2048 ∧ utf8_encode c = [192 + c / 64, 128 + c % 64]) ∨
    (2048 ≤ c ∧ c < 65536 ∧
      utf8_encode c = [224 + c / 4096, 128 + c / 64 % 64, 128 + c % 64]) ∨
    (65536 ≤ c ∧ c < 2097152 ∧
      utf8_encode c = [240 + c / 262144, 128 + c / 4096 % 64, 128 + c / 64 % 64, 128 + c % 64]) ∨
    (2097152 ≤ c ∧ c < 67108864 ∧
      utf8_encode c = [248 + c / 16777216, 128 + c / 262144 % 64, 128 + c / 4096 % 64,
        128 + c / 64 % 64, 128 + c % 64]) ∨
    (67108864 ≤ c ∧ c < 2147483648 ∧
      utf8_encode c = [252 + c / 1073741824, 128 + c / 16777216 % 64, 128 + c / 262144 % 64,
        128 + c / 4096 % 64, 128 + c / 64 % 64, 128 + c % 64]) := by
  unfold utf8_encode
  by_cases h1 : c < 128
  · exact Or.inl ⟨h1, if_pos h1⟩
  · by_cases h2 : c < 2048
    · exact Or.inr (Or.inl ⟨by omega, h2, by rw [if_neg h1, if_pos h2]⟩)
    · by_cases h3 : c < 65536
      · exact Or.inr (Or.inr (Or.inl ⟨by omega, h3, by rw [if_neg h1, if_neg h2, if_pos h3]⟩))
      · by_cases h4 : c < 2097152
        · exact Or.inr (Or.inr (Or.inr (Or.inl
            ⟨by omega, h4, by rw [if_neg h1, if_neg h2, if_neg h3, if_pos h4]⟩)))
        · by_cases h5 : c < 67108864
          · exact Or.inr (Or.inr (Or.inr (Or.inr (Or.inl
              ⟨by omega, h5, by rw [if_neg h1, if_neg h2, if_neg h3, if_neg h4, if_pos h5]⟩))))
          · exact Or.inr (Or.inr (Or.inr (Or.inr (Or.inr
              ⟨by omega, hc,
                by rw [if_neg h1, if_neg h2, if_neg h3, if_neg h4, if_neg h5]⟩))))

/-- One loop iteration on a well-formed sequence: the encoding of `c` at the
input cursor is consumed whole and `c` is stored in the next output slot. -/
theorem decode_one (inp rest : List Nat) (c oc n pos : Nat) (r : ConvResult)
    (hc : c < 2 ^ 31) (hdrop : inp.drop pos = utf8_encode c ++ rest)
    (hsize : (utf8_encode c).length ≤ n) :
    conv_loop inp (oc + 1) n pos r =
      conv_loop inp oc (n - (utf8_encode c).length) (pos + (utf8_encode c).length)
        { ret := r.ret + 1
          out := r.out.set r.ret c
          reads := r.reads ++ List.range' pos (utf8_encode c).length
          writes := r.writes ++ [r.ret] } := by
  have hc2 : c < 2147483648 := hc
  rcases utf8_encode_cases c hc2 with ⟨h1, e⟩ | ⟨h1, h2, e⟩ | ⟨h1, h2, e⟩ | ⟨h1, h2, e⟩ |
    ⟨h1, h2, e⟩ | ⟨h1, h2, e⟩
  · rw [e] at hdrop hsize ⊢
    exact decode_one_byte inp rest c oc n pos r (by omega) h1 hdrop hsize
  · rw [e] at hdrop hsize ⊢
    exact decode_two_byte inp rest c oc n pos r h1 h2 hdrop hsize
  · rw [e] at hdrop hsize ⊢
    exact decode_three_byte inp rest c oc n pos r h1 h2 hdrop hsize
  · rw [e] at hdrop hsize ⊢
    exact decode_four_byte inp rest c oc n pos r h1 h2 hdrop hsize
  · rw [e] at hdrop hsize ⊢
    exact decode_five_byte inp rest c oc n pos r h1 h2 hdrop hsize
  · rw [e] at hdrop hsize ⊢
    exact decode_six_byte inp rest c oc n pos r h1 h2 hdrop hsize

/-! ## Decoding a run of sequences -/

theorem utf8_encode_length_pos (c : Nat) : 1 ≤ (utf8_encode c).length := by
  unfold utf8_encode
  split_ifs <;> simp

theorem utf8_encode_all_cons (c : Nat) (cs : List Nat) :
    utf8_encode_all (c :: cs) = utf8_encode c ++ utf8_encode_all cs := by
  simp only [utf8_encode_all, List.map_cons, List.flatten_cons]

theorem utf8_encode_all_length_ge (cs : List Nat) : cs.length ≤ (utf8_encode_all cs).length := by
  induction cs with
  | nil => simp [utf8_encode_all]
  | cons c cs ih =>
    rw [utf8_encode_all_cons, List.length_append, List.length_cons]
    have := utf8_encode_length_pos c
    omega

theorem drop_add_of_drop (inp a b : List Nat) (pos : Nat) (h : inp.drop pos = a ++ b) :
    inp.drop (pos + a.length) = b := by
  rw [← List.drop_drop, h, List.drop_left]

theorem set_then_store (l cs : List Nat) (i c : Nat) (h : i + (cs.length + 1) ≤ l.length) :
    (l.set i c).take (i + 1) ++ cs ++ (l.set i c).drop (i + 1 + cs.length)
      = l.take i ++ (c :: cs) ++ l.drop (i + (cs.length + 1)) := by
  have hs : l.set i c = (l.take i ++ [c]) ++ l.drop (i + 1) := by
    rw [List.set_eq_take_append_cons_drop, if_pos (by omega)]
    simp
  have hl : (l.take i ++ [c]).length = i + 1 := by
    simp only [List.length_append, List.length_take, List.length_cons, List.length_nil]
    omega
  rw [hs, List.take_left' hl, ← hl, List.drop_append, List.drop_drop]
  simp only [List.append_assoc, List.singleton_append]
  congr 3
  omega

/-- The loop on a run of well-formed sequences followed by anything: all of
them are decoded when the output has room for them. -/
theorem decode_all (inp rest : List Nat) :
    ∀ (cs : List Nat) (oc n pos : Nat) (r : ConvResult), (∀ c ∈ cs, c < 2 ^ 31) →
      inp.drop pos = utf8_encode_all cs ++ rest → (utf8_encode_all cs).length ≤ n →
      cs.length ≤ oc → r.ret + cs.length ≤ r.out.length →
      conv_loop inp oc n pos r =
        conv_loop inp (oc - cs.length) (n - (utf8_encode_all cs).length)
          (pos + (utf8_encode_all cs).length)
          { ret := r.ret + cs.length
            out := r.out.take r.ret ++ cs ++ r.out.drop (r.ret + cs.length)
            reads := r.reads ++ List.range' pos (utf8_encode_all cs).length
            writes := r.writes ++ List.range' r.ret cs.length } := by
  intro cs
  induction cs with
  | nil =>
    intro oc n pos r _ _ _ _ _
    simp only [utf8_encode_all, List.map_nil, List.flatten_nil, List.length_nil, Nat.sub_zero,
      Nat.add_zero, List.range'_zero, List.append_nil, List.take_append_drop]
  | cons c cs ih =>
    intro oc n pos r hcs hdrop hn hoc hroom
    rw [utf8_encode_all_cons, List.append_assoc] at hdrop
    rw [utf8_encode_all_cons, List.length_append] at hn ⊢
    simp only [List.length_cons] at hoc hroom ⊢
    obtain ⟨oc, rfl⟩ : ∃ k, oc = k + 1 := ⟨oc - 1, by omega⟩
    rw [decode_one inp _ c oc n pos r (hcs c (List.mem_cons_self _ _)) hdrop (by omega)]
    rw [ih oc _ _ _ (fun x hx => hcs x (List.mem_cons_of_mem _ hx))
      (drop_add_of_drop inp _ _ pos hdrop) (by omega) (by omega)
      (by simp only [List.length_set]; omega)]
    have e1 : oc + 1 - (cs.length + 1) = oc - cs.length := by omega
    have e2 : n - ((utf8_encode c).length + (utf8_encode_all cs).length)
        = n - (utf8_encode c).length - (utf8_encode_all cs).length := by omega
    have e3 : pos + ((utf8_encode c).length + (utf8_encode_all cs).length)
        = pos + (utf8_encode c).length + (utf8_encode_all cs).length := by omega
    have e4 : r.ret + (cs.length + 1) = r.ret + 1 + cs.length := by omega
    have e5 := set_then_store r.out cs r.ret c hroom
    have e6 : r.reads ++ List.range' pos
          ((utf8_encode c).length + (utf8_encode_all cs).length)
        = r.reads ++ List.range' pos (utf8_encode c).length
          ++ List.range' (pos + (utf8_encode c).length) (utf8_encode_all cs).length := by
      rw [List.append_assoc, List.range'_append_1, Nat.add_comm]
    have e7 : r.writes ++ List.range' r.ret (cs.length + 1)
        = r.writes ++ [r.ret] ++ List.range' (r.ret + 1) cs.length := by
      rw [List.append_assoc, List.range'_succ]
      rfl
    rw [e1, e2, e3, e6, e7, ← e5, e4]

/-! ## Bounds of the loop -/

theorem conv_loop_accept_shape (inp : List Nat) (oc n pos : Nat) (r : ConvResult) (h0 : n ≠ 0)
    (hacc : ¬ rejected (inp.getD pos 0 % 256) n) :
    ∃ e v, 1 + e ≤ n ∧
      conv_loop inp (oc + 1) n pos r =
        conv_loop inp oc (n - (1 + e)) (pos + 1 + e)
          { ret := r.ret + 1, out := r.out.set r.ret v,
            reads := r.reads ++ List.range' pos (1 + e), writes := r.writes ++ [r.ret] } := by
  have hfit : ¬ n < 1 + (if leading_ones (inp.getD pos 0 % 256) ≠ 0
      then leading_ones (inp.getD pos 0 % 256) - 1
      else leading_ones (inp.getD pos 0 % 256)) := fun h => hacc (Or.inr (Or.inr h))
  exact ⟨_, _, by omega, conv_loop_accept inp oc n pos r h0 hacc⟩

/-- Bounds kept by the loop from any loop state: the count grows by at most
the remaining output room and the remaining input size, the output array
keeps its length and changes only in the slots counted, the slots are written
in order, and every offset read lies in the remaining input window. -/
theorem conv_loop_bounds (inp : List Nat) :
    ∀ (oc n pos : Nat) (r : ConvResult),
      r.ret ≤ (conv_loop inp oc n pos r).ret ∧
      (conv_loop inp oc n pos r).ret - r.ret ≤ oc ∧
      (conv_loop inp oc n pos r).ret - r.ret ≤ n ∧
      (conv_loop inp oc n pos r).out.length = r.out.length ∧
      (conv_loop inp oc n pos r).writes
        = r.writes ++ List.range' r.ret ((conv_loop inp oc n pos r).ret - r.ret) ∧
      (∃ more, (conv_loop inp oc n pos r).reads = r.reads ++ more ∧
        ∀ p ∈ more, pos ≤ p ∧ p < pos + n) ∧
      (∀ j, j < r.ret ∨ (conv_loop inp oc n pos r).ret ≤ j →
        (conv_loop inp oc n pos r).out[j]? = r.out[j]?) := by
  intro oc
  induction oc with
  | zero =>
    intro n pos r
    have e : conv_loop inp 0 n pos r = r := rfl
    rw [e]
    refine ⟨Nat.le_refl _, by omega, by omega, rfl, ?_, ⟨[], by simp, by simp⟩, fun _ _ => rfl⟩
    simp
  | succ oc ih =>
    intro n pos r
    by_cases h0 : n = 0
    · subst h0
      rw [conv_loop_empty]
      refine ⟨Nat.le_refl _, by omega, by omega, rfl, ?_, ⟨[], by simp, by simp⟩,
        fun _ _ => rfl⟩
      simp
    · by_cases hrej : rejected (inp.getD pos 0 % 256) n
      · rw [conv_loop_reject inp oc n pos r h0 hrej]
        refine ⟨Nat.le_refl _, by simp, by simp, rfl, by simp, ⟨[pos], rfl, ?_⟩, fun _ _ => rfl⟩
        intro p hp
        simp only [List.mem_singleton] at hp
        omega
      · obtain ⟨e, v, hfit, heq⟩ := conv_loop_accept_shape inp oc n pos r h0 hrej
        rw [heq]
        obtain ⟨i1, i2, i3, i4, i5, ⟨more, i6, i7⟩, i8⟩ := ih (n - (1 + e)) (pos + 1 + e)
          { ret := r.ret + 1, out := r.out.set r.ret v,
            reads := r.reads ++ List.range' pos (1 + e), writes := r.writes ++ [r.ret] }
        simp only [List.length_set] at i1 i2 i3 i4 i5 i6 i8
        refine ⟨by omega, by omega, by omega, i4, ?_, ⟨List.range' pos (1 + e) ++ more, ?_, ?_⟩,
          ?_⟩
        · rw [i5, List.append_assoc]
          congr 1
          have hk : (conv_loop inp oc (n - (1 + e)) (pos + 1 + e)
              { ret := r.ret + 1, out := r.out.set r.ret v,
                reads := r.reads ++ List.range' pos (1 + e),
                writes := r.writes ++ [r.ret] }).ret - r.ret
              = ((conv_loop inp oc (n - (1 + e)) (pos + 1 + e)
              { ret := r.ret + 1, out := r.out.set r.ret v,
                reads := r.reads ++ List.range' pos (1 + e),
                writes := r.writes ++ [r.ret] }).ret - (r.ret + 1)) + 1 := by omega
          rw [hk, List.range'_succ]
          rfl
        · rw [i6, List.append_assoc]
        · intro p hp
          rcases List.mem_append.mp hp with hp | hp
          · rw [List.mem_range'_1] at hp
            omega
          · have := i7 p hp
            omega
        · intro j hj
          rw [i8 j (by omega), List.getElem?_set]
          have hne : ¬ r.ret = j := by omega
          rw [if_neg hne]

theorem conv_utf8_utf32_eq (out : List Nat) (out_chars : Nat) (inp : List Nat) (in_size : Nat) :
    conv_utf8_utf32 out out_chars inp in_size
      = conv_loop inp out_chars in_size 0 { ret := 0, out := out, reads := [], writes := [] } :=
  rfl

/-- A run of well-formed sequences that fills the whole input is decoded
completely. -/
theorem conv_decodes (out cs : List Nat) (out_chars : Nat) (hcs : ∀ c ∈ cs, c < 2 ^ 31)
    (hk : cs.length ≤ out_chars) (hout : out_chars ≤ out.length) :
    conv_utf8_utf32 out out_chars (utf8_encode_all cs) (utf8_encode_all cs).length =
      { ret := cs.length
        out := cs ++ out.drop cs.length
        reads := List.range' 0 (utf8_encode_all cs).length
        writes := List.range' 0 cs.length } := by
  rw [conv_utf8_utf32_eq,
    decode_all (utf8_encode_all cs) [] cs out_chars _ 0 _ hcs (by simp) (Nat.le_refl _) hk
      (by simp only [Nat.zero_add]; omega)]
  simp only [Nat.sub_self, conv_loop_empty, Nat.zero_add, List.take_zero, List.nil_append]

/-- A run of well-formed sequences followed by a rejected lead byte: the
decoder returns the number of sequences before that byte and reads nothing
after it. -/
theorem conv_stops (out cs rest : List Nat) (b out_chars : Nat) (hcs : ∀ c ∈ cs, c < 2 ^ 31)
    (hk : cs.length < out_chars) (hout : out_chars ≤ out.length)
    (hrej : rejected (b % 256) (1 + rest.length)) :
    conv_utf8_utf32 out out_chars (utf8_encode_all cs ++ b :: rest)
        (utf8_encode_all cs ++ b :: rest).length =
      { ret := cs.length
        out := cs ++ out.drop cs.length
        reads := List.range' 0 ((utf8_encode_all cs).length + 1)
        writes := List.range' 0 cs.length } := by
  rw [conv_utf8_utf32_eq,
    decode_all (utf8_encode_all cs ++ b :: rest) (b :: rest) cs out_chars _ 0 _ hcs (by simp)
      (by simp) (by omega) (by simp only [Nat.zero_add]; omega)]
  obtain ⟨oc, hoc⟩ : ∃ k, out_chars - cs.length = k + 1 := ⟨out_chars - cs.length - 1, by omega⟩
  have hn : (utf8_encode_all cs ++ b :: rest).length - (utf8_encode_all cs).length
      = 1 + rest.length := by
    simp only [List.length_append, List.length_cons]; omega
  have hb : (utf8_encode_all cs ++ b :: rest).getD (0 + (utf8_encode_all cs).length) 0 = b := by
    rw [Nat.zero_add, List.getD_eq_getElem?_getD, List.getElem?_append_right (Nat.le_refl _)]
    simp
  rw [hoc, hn, conv_loop_reject _ oc _ _ _ (by omega) (by rw [hb]; exact hrej)]
  simp only [Nat.zero_add, List.take_zero, List.nil_append]
  congr 1
  rw [Nat.add_comm, ← List.range'_append_1 0 (utf8_encode_all cs).length 1]
  simp

/-! ## Claims about the decoder -/

/-- C18: UTF-8 decode round trip. For code points below `2^31`, each encoded
in the classic 1-to-6-byte scheme, `conv_utf8_utf32` called on the
concatenation of the `k` encodings, with `in_size` its length and
`out_chars ≥ k` slots, returns `k` and stores the `k` code points in order in
`out[0..k-1]`, leaving the other slots as they were; in particular for one
code point `c` and `out_chars ≥ 1` it returns 1 and stores `out[0] = c`. -/
theorem conv_utf8_utf32_round_trip (out cs : List Nat) (out_chars : Nat)
    (hcs : ∀ c ∈ cs, c < 2 ^ 31) (hk : cs.length ≤ out_chars) (hout : out_chars ≤ out.length) :
    (conv_utf8_utf32 out out_chars (utf8_encode_all cs) (utf8_encode_all cs).length).ret
      = cs.length ∧
    (conv_utf8_utf32 out out_chars (utf8_encode_all cs) (utf8_encode_all cs).length).out
      = cs ++ out.drop cs.length ∧
    (∀ i, i < cs.length →
      (conv_utf8_utf32 out out_chars (utf8_encode_all cs) (utf8_encode_all cs).length).out[i]?
        = cs[i]?) ∧
    (∀ c, cs = [c] →
      (conv_utf8_utf32 out out_chars (utf8_encode c) (utf8_encode c).length).ret = 1 ∧
      (conv_utf8_utf32 out out_chars (utf8_encode c) (utf8_encode c).length).out[0]? = some c)
    := by
  have h := conv_decodes out cs out_chars hcs hk hout
  refine ⟨by rw [h], by rw [h], ?_, ?_⟩
  · intro i hi
    rw [h]
    exact List.getElem?_append_left hi
  · intro c hc
    subst hc
    have e : utf8_encode_all [c] = utf8_encode c := by
      simp only [utf8_encode_all, List.map_cons, List.map_nil, List.flatten_cons,
        List.flatten_nil, List.append_nil]
    rw [e] at h
    rw [h]
    refine ⟨rfl, ?_⟩
    show ([c] ++ List.drop 1 out)[0]? = some c
    simp

/-- Witness for C18: the code points U+0041, U+20AC, U+10348 and `2^31 - 1`,
encoded in 1, 3, 4 and 6 bytes, decoded into an array of five slots. -/
theorem conv_utf8_utf32_round_trip_witness :
    (conv_utf8_utf32 [0, 0, 0, 0, 0] 5 (utf8_encode_all [65, 8364, 66376, 2147483647])
      (utf8_encode_all [65, 8364, 66376, 2147483647]).length).out
        = [65, 8364, 66376, 2147483647, 0] :=
  (conv_utf8_utf32_round_trip [0, 0, 0, 0, 0] [65, 8364, 66376, 2147483647] 5
    (by decide) (by decide) (by decide)).2.1

/-- C19: decoder bounds and rejection. For every input, `in_size` and
`out_chars`, `conv_utf8_utf32` (a total function: the loop runs at most
`out_chars` times) returns `ret ≤ min(out_chars, in_size)`, writes exactly the
output slots `0..ret-1` in order and leaves the rest of the array alone, and
reads only input offsets below `in_size`; `leading_ones` is at most 8; at any
point of the loop a lead byte whose count of leading ones is 1 or above 6, or
whose sequence length `1 + extra` exceeds the remaining `in_size`, ends the
loop with the count so far, no write and no read after that byte; so on a run
of well-formed sequences followed by such a byte the decoder returns the
number of sequences decoded before it. -/
theorem conv_utf8_utf32_bounds (out inp : List Nat) (out_chars in_size : Nat) :
    (conv_utf8_utf32 out out_chars inp in_size).ret ≤ min out_chars in_size ∧
    (conv_utf8_utf32 out out_chars inp in_size).writes
      = List.range (conv_utf8_utf32 out out_chars inp in_size).ret ∧
    (conv_utf8_utf32 out out_chars inp in_size).out.length = out.length ∧
    (∀ j, (conv_utf8_utf32 out out_chars inp in_size).ret ≤ j →
      (conv_utf8_utf32 out out_chars inp in_size).out[j]? = out[j]?) ∧
    (∀ p ∈ (conv_utf8_utf32 out out_chars inp in_size).reads, p < in_size) ∧
    (∀ b, leading_ones b ≤ 8) ∧
    (∀ (oc n pos : Nat) (r : ConvResult), n ≠ 0 → rejected (inp.getD pos 0 % 256) n →
      conv_loop inp (oc + 1) n pos r = { r with reads := r.reads ++ [pos] }) ∧
    (∀ (cs rest : List Nat) (b : Nat), inp = utf8_encode_all cs ++ b :: rest →
      in_size = inp.length → (∀ c ∈ cs, c < 2 ^ 31) → cs.length < out_chars →
      out_chars ≤ out.length → rejected (b % 256) (1 + rest.length) →
      conv_utf8_utf32 out out_chars inp in_size =
        { ret := cs.length
          out := cs ++ out.drop cs.length
          reads := List.range' 0 ((utf8_encode_all cs).length + 1)
          writes := List.range' 0 cs.length }) := by
  obtain ⟨_, i2, i3, i4, i5, ⟨more, i6, i7⟩, i8⟩ := conv_loop_bounds inp out_chars in_size 0
    { ret := 0, out := out, reads := [], writes := [] }
  rw [← conv_utf8_utf32_eq] at i2 i3 i4 i5 i6 i8
  simp only [Nat.sub_zero, List.nil_append, Nat.zero_add] at i2 i3 i4 i5 i6 i7 i8
  refine ⟨by omega, ?_, i4, fun j hj => i8 j (Or.inr hj), ?_, leading_ones_le, ?_, ?_⟩
  · rw [i5, List.range_eq_range']
  · intro p hp
    rw [i6] at hp
    exact (i7 p hp).2
  · intro oc n pos r h0 hrej
    exact conv_loop_reject inp oc n pos r h0 hrej
  · intro cs rest b hinp hsize hcs hk hout hrej
    subst hinp
    subst hsize
    exact conv_stops out cs rest b out_chars hcs hk hout hrej

/-- Witness for C19: `A`, `é`, then a stray continuation byte `0x80` (one
leading one bit) and one more byte; two characters are decoded. -/
theorem conv_utf8_utf32_bounds_witness :
    conv_utf8_utf32 [0, 0, 0, 0] 4 (utf8_encode_all [65, 233] ++ 128 :: [66])
        (utf8_encode_all [65, 233] ++ 128 :: [66]).length =
      { ret := 2
        out := [65, 233, 0, 0]
        reads := [0, 1, 2, 3]
        writes := [0, 1] } :=
  (conv_utf8_utf32_bounds [0, 0, 0, 0] (utf8_encode_all [65, 233] ++ 128 :: [66]) 4
      (utf8_encode_all [65, 233] ++ 128 :: [66]).length).2.2.2.2.2.2.2
    [65, 233] [66] 128 rfl rfl (by decide) (by decide) (by decide)
    (Or.inl (by rw [leading_ones_eq _ (by omega)]; rfl))

end KeyboardEventX11
